import Mathlib

/-!
# Settings slice (`src/app/store/fuse/settingsSlice.js`)

A shallow embedding of the settings slice: the settings merge (`generateSettings`), the
reducers of the slice with their writes to local storage, the start-up value
(`getInitialSettings`), the light/dark palette overlay (`changeThemeMode`) and the contrast
selector.

JavaScript values are represented by the tree type `JsVal` (the JSON data model together with
`undefined`).  Numbers are integers, `NaN` or infinite (`JsNum`).  An object is its list of own properties in insertion
order (that JavaScript enumerates integer-like keys first is not tracked; no function here
depends on the order of distinct keys).  A JavaScript object never holds a key twice, which is
part of the predicate `JsVal.wf`.

The function `_.merge` is lodash's; it is embedded from its implementation (`baseMerge`,
`baseMergeDeep`, `assignMergeValue`, `copyArray`), restricted to this data model.

Every function that can throw, or whose lodash counterpart would leave this data model, returns
an `Option`; `none` stands for both.
-/

/-- JavaScript numbers as far as this file tells them apart: a number with an integer value,
`NaN`, and the two infinities.  Fractions and `-0` are left out: the functions of this file
look at a number only to ask whether it is zero, what its decimal text is, whether it is a
valid array length, and how `JSON.stringify` writes it. -/
inductive JsNum where
  | int (n : Int)
  | nan
  | posInf
  | negInf
deriving DecidableEq

/-- JavaScript values: the JSON data model together with `undefined`. -/
inductive JsVal where
  | undef
  | null
  | bool (b : Bool)
  | num (n : JsNum)
  | str (s : String)
  | arr (xs : List JsVal)
  | obj (ps : List (String × JsVal))

/-- Own properties of an object, in insertion order. -/
abbrev Props := List (String × JsVal)

namespace JsVal

instance : Inhabited JsVal := ⟨undef⟩

/-- Names that every plain object inherits from `Object.prototype`.  `key in object` is true
for them without an own property, and lodash treats `__proto__` and `constructor` specially, so
a source that carries one of them is outside the modelled fragment. -/
def objectPrototypeKeys : List String :=
  ["constructor", "__defineGetter__", "__defineSetter__", "hasOwnProperty",
   "__lookupGetter__", "__lookupSetter__", "isPrototypeOf", "propertyIsEnumerable",
   "toString", "valueOf", "__proto__", "toLocaleString"]

/-- Own property lookup. -/
def getOwn (key : String) : Props → Option JsVal
  | [] => none
  | (k, v) :: ps => if k = key then some v else getOwn key ps

/-- Reading `object[key]` as lodash `safeGet` does: `undefined` when the key is absent. -/
def safeGet (object : Props) (key : String) : JsVal :=
  (getOwn key object).getD undef

/-- Writing `object[key] = value` (lodash `baseAssignValue`): an existing key keeps its place,
a new key goes to the end. -/
def baseAssignValue (key : String) (value : JsVal) : Props → Props
  | [] => [(key, value)]
  | (k, v) :: ps =>
    if k = key then (key, value) :: ps else (k, v) :: baseAssignValue key value ps

/-- The lodash predicate `isObject` on this data model: arrays and plain objects. -/
def isObject : JsVal → Bool
  | arr _ => true
  | obj _ => true
  | _ => false

/-- Lodash `assignMergeValue`: a defined value is written; `undefined` is written only when the
key is absent (`Source properties that resolve to undefined are skipped if a destination value
exists`).  The `eq` test of the original only avoids rewriting a value that is already there. -/
def assignMergeValue (object : Props) (key : String) (value : JsVal) : Props :=
  match value with
  | undef => if (getOwn key object).isSome then object else baseAssignValue key undef object
  | _ => baseAssignValue key value object

/-- The result of `assignMergeValue` on one array slot holding `objValue` (`none` when the
index is past the end of the array). -/
def assignMergeElem (objValue : Option JsVal) (value : JsVal) : JsVal :=
  match value with
  | undef => objValue.getD undef
  | _ => value

/-- Largest array length JavaScript can allocate: `2^32 - 1`. -/
def maxArrayLength : Int := 4294967295

/-- Lodash `isArrayLikeObject` on a plain object: it holds a `length` that is a safe
non-negative integer.  Returns that length. -/
def arrayLikeLength (object : Props) : Option Int :=
  match getOwn "length" object with
  | some (num (JsNum.int n)) => if 0 ≤ n ∧ n ≤ 9007199254740991 then some n else none
  | _ => none

/-- Lodash `copyArray` of an array-like plain object: `Array(length)` filled with
`object[0] .. object[length-1]`.  `Array(length)` throws a `RangeError` past `2^32 - 1`. -/
def copyArray (object : Props) (length : Int) : Option (List JsVal) :=
  if length ≤ maxArrayLength then
    some ((List.range length.toNat).map fun i => safeGet object (toString i))
  else none

/-- The array that `baseMergeDeep` merges an array source into: the destination when it is an
array, a copy of it when it is array-like, and a fresh `[]` otherwise. -/
def arrayTarget : JsVal → Option (List JsVal)
  | arr os => some os
  | obj ps =>
    match arrayLikeLength ps with
    | some n => copyArray ps n
    | none => some []
  | _ => some []

/-- The object that `baseMergeDeep` merges a plain-object source into: the destination when it
is an object, a fresh `{}` otherwise.  A destination array would receive named properties,
which this data model cannot hold. -/
def objectTarget : JsVal → Option Props
  | obj os => some os
  | arr _ => none
  | _ => some []

mutual
/-- Modelled from the spec: the recursive step of the deep merge, after lodash
`baseMergeDeep`, for one key: `srcValue` is an array or a plain object and is merged
recursively into what the destination holds under the key (`objValue`); the result is the new
value of the key. -/
def baseMergeDeep (objValue : JsVal) : JsVal → Option JsVal
  | arr xs =>
    match arrayTarget objValue with
    | some os => (baseMergeElems os xs).map arr
    | none => none
  | obj ps =>
    match objectTarget objValue with
    | some os => (baseMerge os ps).map obj
    | none => none
  | v => some v
/-- Modelled from the spec: the deep merge of one plain-object source, after lodash
`baseMerge`: the own properties of the source are visited
in order; arrays and plain objects are merged recursively, everything else goes through
`assignMergeValue`. -/
def baseMerge (object : Props) : Props → Option Props
  | [] => some object
  | (key, srcValue) :: rest =>
    if objectPrototypeKeys.contains key then none
    else if isObject srcValue then
      match baseMergeDeep (safeGet object key) srcValue with
      | some newValue => baseMerge (baseAssignValue key newValue object) rest
      | none => none
    else baseMerge (assignMergeValue object key srcValue) rest
/-- Modelled from the spec: the deep merge of an array source into an array destination,
after lodash `baseMerge`: index `i` of the source is
merged into index `i` of the destination; a destination shorter than the source grows. -/
def baseMergeElems : List JsVal → List JsVal → Option (List JsVal)
  | object, [] => some object
  | object, srcValue :: rest =>
    match (if isObject srcValue then baseMergeDeep (object.head?.getD undef) srcValue
           else some (assignMergeElem object.head? srcValue)) with
    | some newValue =>
      match baseMergeElems object.tail rest with
      | some tl => some (newValue :: tl)
      | none => none
    | none => none
end

/-- The own enumerable properties of an array used as a source: its indices as keys. -/
def indexedEntries (i : Nat) : List JsVal → Props
  | [] => []
  | x :: xs => (toString i, x) :: indexedEntries (i + 1) xs

/-- One source of `_.merge(object, ...sources)`.  Falsy sources are skipped, numbers and
booleans have no own properties, an array contributes its indices.  A non-empty string would
contribute its characters and is not modelled. -/
def mergeSource (object : Props) : JsVal → Option Props
  | obj ps => baseMerge object ps
  | arr xs => baseMerge object (indexedEntries 0 xs)
  | str s => if s = "" then some object else none
  | _ => some object

/-- Modelled from the spec: `_.merge` of lodash, imported through `@lodash` and not under
`src/` (`deep merge, not replace`; `later sources override earlier ones key-by-key`).  What
the spec leaves open follows lodash: the sources are merged into the destination from left to
right by `mergeSource`.  (The iteratee-call guard of lodash drops sources only when the second source is a
number or a string; at every call of this file it is an object or there are at most two
sources.) -/
def merge (object : Props) : List JsVal → Option Props
  | [] => some object
  | source :: rest =>
    match mergeSource object source with
    | some object' => merge object' rest
    | none => none

mutual
/-- Structural equality test on values. -/
def beq : JsVal → JsVal → Bool
  | undef, undef => true
  | null, null => true
  | bool a, bool b => a == b
  | num a, num b => decide (a = b)
  | str a, str b => a == b
  | arr xs, arr ys => beqElems xs ys
  | obj ps, obj qs => beqProps ps qs
  | _, _ => false
/-- Structural equality test on element lists. -/
def beqElems : List JsVal → List JsVal → Bool
  | [], [] => true
  | x :: xs, y :: ys => beq x y && beqElems xs ys
  | _, _ => false
/-- Structural equality test on property lists. -/
def beqProps : Props → Props → Bool
  | [], [] => true
  | (k, x) :: ps, (l, y) :: qs => k == l && beq x y && beqProps ps qs
  | _, _ => false
end

/-- JavaScript truthiness. -/
def truthy : JsVal → Bool
  | undef => false
  | null => false
  | bool b => b
  | num (JsNum.int n) => n != 0
  | num JsNum.nan => false
  | str s => s != ""
  | _ => true

/-- Optional member access `base?.name`: `undefined` on `null` and `undefined`, the own
property on an object.  Used only with names that no prototype defines (`layout`, `style`,
`defaults`, `data`, `settings`), so every other kind of value yields `undefined`. -/
def optGet (base : JsVal) (name : String) : JsVal :=
  match base with
  | obj ps => safeGet ps name
  | _ => undef

/-- Member access `base.name`: throws a `TypeError` on `null` and `undefined`. -/
def getMember (base : JsVal) (name : String) : Option JsVal :=
  match base with
  | undef => none
  | null => none
  | v => some (optGet v name)

/-- The property key a value denotes in `table[value]`.  Arrays, objects and numbers that
JavaScript prints with an exponent (from `10^21`) are not modelled. -/
def propertyKey : JsVal → Option String
  | undef => some "undefined"
  | null => some "null"
  | bool b => some (if b then "true" else "false")
  | num (JsNum.int n) => if n.natAbs < 10 ^ 21 then some (toString n) else none
  | num JsNum.nan => some "NaN"
  | num JsNum.posInf => some "Infinity"
  | num JsNum.negInf => some "-Infinity"
  | str s => some s
  | _ => none

/-- The value after the members of a path: `v.k1.k2...` read with `optGet`. -/
def getPath (v : JsVal) : List String → JsVal
  | [] => v
  | k :: ks => getPath (optGet v k) ks

mutual
/-- A value as JavaScript can hold it: no object has a key twice, and no key shadows a member
of `Object.prototype`. -/
def wf : JsVal → Bool
  | arr xs => wfElems xs
  | obj ps => wfProps ps
  | _ => true
/-- Every element is well formed. -/
def wfElems : List JsVal → Bool
  | [] => true
  | x :: xs => wf x && wfElems xs
/-- The keys are distinct, none is a member of `Object.prototype`, and every value is well
formed. -/
def wfProps : Props → Bool
  | [] => true
  | (k, v) :: ps =>
    !objectPrototypeKeys.contains k && (getOwn k ps).isNone && wf v && wfProps ps
end

mutual
/-- The value that `JSON.parse(JSON.stringify(v))` yields for a value inside an array or under
a key: `undefined` inside an array becomes `null`, a key holding `undefined` is dropped, `NaN`
and the infinities are written as `null`. -/
def jsonValue : JsVal → JsVal
  | undef => null
  | num JsNum.nan => null
  | num JsNum.posInf => null
  | num JsNum.negInf => null
  | arr xs => arr (jsonElems xs)
  | obj ps => obj (jsonProps ps)
  | v => v
/-- Elements of a serialized array. -/
def jsonElems : List JsVal → List JsVal
  | [] => []
  | x :: xs => jsonValue x :: jsonElems xs
/-- Properties of a serialized object. -/
def jsonProps : Props → Props
  | [] => []
  | (k, v) :: ps =>
    match v with
    | undef => jsonProps ps
    | _ => (k, jsonValue v) :: jsonProps ps
end

mutual
/-- The value survives serialization unchanged: it holds no `undefined`, no `NaN` and no
infinity, and its integers are safe (at most `2^53 - 1` in absolute value, so that the text
denotes the same number). -/
def jsonExact : JsVal → Bool
  | undef => false
  | num (JsNum.int n) => decide (n.natAbs ≤ 9007199254740991)
  | num _ => false
  | arr xs => jsonExactElems xs
  | obj ps => jsonExactProps ps
  | _ => true
/-- Every element survives serialization unchanged. -/
def jsonExactElems : List JsVal → Bool
  | [] => true
  | x :: xs => jsonExact x && jsonExactElems xs
/-- Every property survives serialization unchanged. -/
def jsonExactProps : Props → Bool
  | [] => true
  | (_, v) :: ps => jsonExact v && jsonExactProps ps
end

/-- The value a key holds after `srcValue` has been merged into it: `objValue` is what the key
held before (`none` when the key was absent). -/
def mergeValue (objValue : Option JsVal) (srcValue : JsVal) : Option JsVal :=
  if isObject srcValue then baseMergeDeep (objValue.getD undef) srcValue
  else some (assignMergeElem objValue srcValue)

/-- The value at the end of a path of own properties: every step but the last leads to a plain
object that holds the next key as an own property (`none` otherwise). -/
def ownPath (v : JsVal) : List String → Option JsVal
  | [] => some v
  | k :: ks =>
    match v with
    | obj ps =>
      match getOwn k ps with
      | some w => ownPath w ks
      | none => none
    | _ => none

/-- The defined scalars: `null`, booleans, numbers and strings. -/
def isScalar : JsVal → Bool
  | null => true
  | bool _ => true
  | num _ => true
  | str _ => true
  | _ => false

/-- A Settings value of the data model: a well-formed plain object. -/
def isSettings : JsVal → Bool
  | obj ps => wfProps ps
  | _ => false

end JsVal

namespace SettingsSlice
open JsVal

/-- The text held under a storage key.  JSON text is represented by the value it denotes;
`empty` is the empty string and `malformed` any other text that `JSON.parse` rejects (the text
`undefined` among them). -/
inductive StoredText where
  | json (v : JsVal)
  | empty
  | malformed

/-- One call of `localStorage.setItem(key, text)`. -/
structure Write where
  key : String
  text : StoredText

/-- What `localStorage.getItem('fuseSettings')` does: it throws, finds no item (`null`), or
returns the stored text. -/
inductive ReadOutcome where
  | throws
  | missing
  | found (text : StoredText)

/-- The value of `JSON.stringify(v)`: `undefined` (`none`) for `undefined`, and otherwise the
text denoting `jsonValue v`. -/
def jsonStringify : JsVal → Option JsVal
  | undef => none
  | v => some (jsonValue v)

/-- The argument of `setItem` is converted to a string: `undefined` becomes the text
`undefined`, which is not JSON. -/
def storedText : Option JsVal → StoredText
  | some v => StoredText.json v
  | none => StoredText.malformed

/-- The function `JSON.parse`: the denoted value, or a `SyntaxError`. -/
def jsonParse : StoredText → Except Unit JsVal
  | StoredText.json v => Except.ok v
  | _ => Except.error ()

/-- Whether `JSON.parse(text)` returns a value equal to `v`. -/
def parsesTo (text : StoredText) (v : JsVal) : Bool :=
  match jsonParse text with
  | Except.ok w => JsVal.beq w v
  | Except.error _ => false

/-- The call `localStorage.getItem('fuseSettings')`: the item or `null` (`none`), or an
exception. -/
def getItem : ReadOutcome → Except Unit (Option StoredText)
  | ReadOutcome.throws => Except.error ()
  | ReadOutcome.missing => Except.ok none
  | ReadOutcome.found t => Except.ok (some t)

/-- Source lines 33-39.  The call of `setItem` that `saveSettingsToLocalStorage` makes; a
failure of the call is caught and logged. -/
def saveSettingsToLocalStorage (settings : JsVal) : Write :=
  { key := "fuseSettings", text := storedText (jsonStringify settings) }

/-- Source lines 41-49.  The empty string is falsy and gives `null`; every exception is caught
and gives `null`. -/
def loadSettingsFromLocalStorage (storage : ReadOutcome) : JsVal :=
  match (do
      let settings ← getItem storage
      match settings with
      | none => pure JsVal.null
      | some StoredText.empty => pure JsVal.null
      | some t => jsonParse t : Except Unit JsVal) with
  | Except.ok v => v
  | Except.error _ => JsVal.null

/-- The imported collaborators of the module. -/
structure Env where
  /-- Default export of `app/theme-layouts/themeLayoutConfigs`: layout style to its entry. -/
  themeLayoutConfigs : Props
  /-- Default export of `app/configs/settingsConfig`. -/
  settingsConfig : JsVal
  /-- The export `defaultSettings` of `@fuse/default-settings`. -/
  defaultSettings : JsVal
  /-- The member `defaultDark` of `app/configs/themesConfig`. -/
  defaultDark : JsVal
  /-- The value of `getParsedQuerySettings()` at module load. -/
  parsedQuerySettings : JsVal
  /-- The exports `darkPaletteText` and `lightPaletteText` of `app/configs/themesConfig`. -/
  darkPaletteText : JsVal
  lightPaletteText : JsVal
  /-- Behaviour of local storage at module load. -/
  storage : ReadOutcome

/-- Source line 52: the layout style named by the static configuration, `layout1` when it names
none.  Reading `settingsConfig.layout` throws when the configuration is `null` or
`undefined`. -/
def defaultLayoutStyle (settingsConfig : JsVal) : Option JsVal :=
  match getMember settingsConfig "layout" with
  | none => none
  | some layout =>
    some (if truthy layout && truthy (optGet layout "style")
          then optGet layout "style" else str "layout1")

/-- Source line 55: `themeLayoutConfigs[key].defaults`.  It throws when the table has no such
entry; a key that names a member of `Object.prototype` finds that member, which has no
`defaults`. -/
def registeredDefaults (themeLayoutConfigs : Props) (key : String) : Option JsVal :=
  match getOwn key themeLayoutConfigs with
  | some entry => getMember entry "defaults"
  | none => if objectPrototypeKeys.contains key then some undef else none

/-- Source lines 52-69: the computed default. -/
def initialSetting (env : Env) : Option JsVal :=
  match defaultLayoutStyle env.settingsConfig with
  | none => none
  | some style =>
    match propertyKey style with
    | none => none
    | some key =>
      match registeredDefaults env.themeLayoutConfigs key with
      | none => none
      | some config =>
        some (obj
          [("layout", obj [("style", style), ("config", config)]),
           ("theme", obj [("main", env.defaultDark), ("navbar", env.defaultDark),
                          ("toolbar", env.defaultDark), ("footer", env.defaultDark)]),
           ("direction", str "ltr"),
           ("defaultAuth", arr [str "admin"]),
           ("loginRedirectUrl", str "/")])

/-- Source lines 51-73 with the loaded settings as an argument: the merge of line 72. -/
def initialSettingsWith (env : Env) (loadedSettings : JsVal) : Option JsVal :=
  match initialSetting env with
  | none => none
  | some initialSetting =>
    (merge [] [env.defaultSettings, initialSetting, env.settingsConfig,
               env.parsedQuerySettings, loadedSettings]).map obj

/-- Source lines 51-73. -/
def getInitialSettings (env : Env) : Option JsVal :=
  initialSettingsWith env (loadSettingsFromLocalStorage env.storage)

/-- Source lines 75-77. -/
def generateSettings (themeLayoutConfigs : Props) (_defaultSettings _newSettings : JsVal) :
    Option JsVal :=
  match propertyKey (optGet (optGet _newSettings "layout") "style") with
  | none => none
  | some key =>
    (merge [] [_defaultSettings,
               obj [("layout",
                 obj [("config", optGet (safeGet themeLayoutConfigs key) "defaults")])],
               _newSettings]).map obj

/-- The call `_.merge({}, value)`. -/
def mergeCopy (value : JsVal) : Option JsVal :=
  (merge [] [value]).map obj

/-- State of the slice. -/
structure SettingsState where
  initial : JsVal
  defaults : JsVal
  current : JsVal

/-- The state as the JavaScript object it is. -/
def SettingsState.toJs (s : SettingsState) : JsVal :=
  obj [("initial", s.initial), ("defaults", s.defaults), ("current", s.current)]

/-- Reading a state back from its JavaScript object. -/
def SettingsState.ofProps (ps : Props) : SettingsState :=
  { initial := safeGet ps "initial", defaults := safeGet ps "defaults",
    current := safeGet ps "current" }

/-- Source lines 79-85: the module constant `initialState`. -/
def initialState (env : Env) : Option SettingsState :=
  match getInitialSettings env with
  | none => none
  | some initialSettings =>
    match mergeCopy initialSettings, mergeCopy initialSettings with
    | some defaults, some current =>
      some { initial := initialSettings, defaults := defaults, current := current }
    | _, _ => none

/-- Source lines 87-106: the payload creator of the thunk `setDefaultSettings`.  It returns the
payload of the fulfilled action and the writes to local storage it made.  The dispatch of
`updateUserSettings` belongs to the user slice and is left out. -/
def setDefaultSettings (env : Env) (settings : SettingsState) (val : JsVal) :
    Option (SettingsState × List Write) :=
  match generateSettings env.themeLayoutConfigs settings.defaults val with
  | none => none
  | some defaults =>
    match mergeCopy defaults, mergeCopy defaults with
    | some d, some c =>
      let updatedSettings : SettingsState := { settings with defaults := d, current := c }
      some (updatedSettings, [saveSettingsToLocalStorage updatedSettings.current])
    | _, _ => none

/-- Source lines 112-121: the reducer `setSettings`. -/
def setSettings (env : Env) (state : SettingsState) (payload : JsVal) :
    Option (SettingsState × List Write) :=
  match generateSettings env.themeLayoutConfigs state.defaults payload with
  | none => none
  | some current =>
    some ({ state with current := current }, [saveSettingsToLocalStorage current])

/-- Source lines 123-127: the reducer `setInitialSettings`. -/
def setInitialSettings (env : Env) (_state : SettingsState) :
    Option (SettingsState × List Write) :=
  match initialState env with
  | none => none
  | some init =>
    match merge [] [init.toJs] with
    | none => none
    | some ps => some (SettingsState.ofProps ps, [saveSettingsToLocalStorage init.current])

/-- Source lines 128-136: the reducer `resetSettings`. -/
def resetSettings (state : SettingsState) : Option (SettingsState × List Write) :=
  match mergeCopy state.defaults, mergeCopy state.defaults with
  | some d, some c =>
    some ({ state with defaults := d, current := c },
          [saveSettingsToLocalStorage state.defaults])
  | _, _ => none

/-- Source lines 139-143: the reducer of `setDefaultSettings.fulfilled`. -/
def setDefaultSettingsFulfilled (_state : SettingsState) (payload : SettingsState) :
    Option (SettingsState × List Write) :=
  some (payload, [saveSettingsToLocalStorage payload.current])

/-- Source lines 144-154: the reducer of `setUser.fulfilled`. -/
def setUserFulfilled (env : Env) (state : SettingsState) (payload : JsVal) :
    Option (SettingsState × List Write) :=
  match generateSettings env.themeLayoutConfigs state.defaults
      (optGet (optGet payload "data") "settings") with
  | none => none
  | some defaults =>
    match mergeCopy defaults, mergeCopy defaults with
    | some d, some c =>
      some ({ state with defaults := d, current := c }, [saveSettingsToLocalStorage defaults])
    | _, _ => none

/-- The full-settings-set operation: the thunk `setDefaultSettings` followed by the reducer of
its fulfilled action on the payload the thunk returned.  The writes of both are listed in
order. -/
def dispatchSetDefaultSettings (env : Env) (state : SettingsState) (val : JsVal) :
    Option (SettingsState × List Write) :=
  match setDefaultSettings env state val with
  | none => none
  | some (payload, ws) =>
    match setDefaultSettingsFulfilled state payload with
    | none => none
    | some (state', ws') => some (state', ws ++ ws')

/-- The own enumerable properties that an object spread `{...value}` copies. -/
def spread : JsVal → Option Props
  | obj ps => some ps
  | arr xs => some (indexedEntries 0 xs)
  | str s => if s = "" then some [] else none
  | _ => some []

/-- Source lines 16-31: `changeFuseTheme(theme)` builds the new settings and dispatches
`setDefaultSettings` with them. -/
def changeFuseTheme (env : Env) (state : SettingsState) (theme : JsVal) :
    Option (SettingsState × List Write) :=
  match spread state.current with
  | none => none
  | some ps =>
    let newSettings := obj (baseAssignValue "theme"
      (obj [("main", theme), ("navbar", theme), ("toolbar", theme), ("footer", theme)]) ps)
    dispatchSetDefaultSettings env state newSettings

/-- The actions of the slice. -/
inductive Action where
  | setSettings (payload : JsVal)
  | setInitialSettings
  | resetSettings
  | setDefaultSettingsFulfilled (payload : SettingsState)
  | setUserFulfilled (payload : JsVal)

/-- The reducer of the slice (source lines 108-156). -/
def reducer (env : Env) (state : SettingsState) : Action → Option (SettingsState × List Write)
  | Action.setSettings payload => setSettings env state payload
  | Action.setInitialSettings => setInitialSettings env state
  | Action.resetSettings => resetSettings state
  | Action.setDefaultSettingsFulfilled payload => setDefaultSettingsFulfilled state payload
  | Action.setUserFulfilled payload => setUserFulfilled env state payload

/-- The table `modes` of `changeThemeMode` (source lines 183-206). -/
def modes (darkPaletteText lightPaletteText : JsVal) : Props :=
  [("dark", obj [("palette", obj
      [("mode", str "dark"),
       ("divider", str "rgba(241,245,249,.12)"),
       ("background", obj [("paper", str "#1E2125"), ("default", str "#121212")]),
       ("text", darkPaletteText)])]),
   ("light", obj [("palette", obj
      [("mode", str "light"),
       ("divider", str "#e2e8f0"),
       ("background", obj [("paper", str "#FFFFFF"), ("default", str "#F7F7F7")]),
       ("text", lightPaletteText)])])]

/-- Source lines 182-209. -/
def changeThemeMode (darkPaletteText lightPaletteText : JsVal) (theme : JsVal)
    (mode : String) : Option JsVal :=
  (merge [] [theme, safeGet (modes darkPaletteText lightPaletteText) mode]).map obj

/-- The two selectors `selectContrastMainTheme` chooses between. -/
inductive MainThemeSelector where
  | selectMainThemeDark
  | selectMainThemeLight
deriving DecidableEq

/-- Source lines 175-180.  The function `getContrastRatio` of `@mui/material/styles` is an
argument. -/
def selectContrastMainTheme (getContrastRatio : String → String → ℚ) (bgColor : String) :
    MainThemeSelector :=
  let isDark := fun color => decide (getContrastRatio color "#ffffff" ≥ 3)
  if isDark bgColor then MainThemeSelector.selectMainThemeDark
  else MainThemeSelector.selectMainThemeLight

end SettingsSlice

/-! ## Concrete inputs -/

namespace SettingsSlice
open JsVal

/-- Two registered layout styles with different default configurations. -/
def exampleLayouts : Props :=
  [("layout1", obj [("defaults", obj [("mode", str "boxed"), ("scroll", str "content")])]),
   ("layout2", obj [("defaults", obj [("mode", str "fullwidth")])])]

/-- A theme with two palette fields. -/
def exampleTheme : JsVal :=
  obj [("palette", obj [("mode", str "dark"), ("divider", str "#334155")])]

/-- The properties of `exampleDefaults`. -/
def exampleDefaultsProps : Props :=
  [("layout", obj [("style", str "layout1"),
                   ("config", obj [("mode", str "boxed"), ("scroll", str "content")])]),
   ("theme", obj [("main", exampleTheme), ("navbar", exampleTheme),
                  ("toolbar", exampleTheme), ("footer", exampleTheme)]),
   ("direction", str "ltr"),
   ("defaultAuth", arr [str "admin", str "staff"])]

/-- A defaults value: layout style `layout1` with its registered configuration. -/
def exampleDefaults : JsVal := obj exampleDefaultsProps

/-- Collaborators whose storage read throws. -/
def exampleEnv : Env :=
  { themeLayoutConfigs := exampleLayouts
    settingsConfig := obj [("layout", obj [("style", str "layout1")])]
    defaultSettings := obj [("customScrollbars", bool true)]
    defaultDark := exampleTheme
    parsedQuerySettings := obj []
    darkPaletteText := obj [("primary", str "rgb(255,255,255)")]
    lightPaletteText := obj [("primary", str "rgb(17,24,39)")]
    storage := ReadOutcome.throws }

/-- A state whose three fields hold `exampleDefaults`. -/
def exampleState : SettingsState :=
  { initial := exampleDefaults, defaults := exampleDefaults, current := exampleDefaults }

/-- The value `getInitialSettings` computes for `exampleEnv`. -/
def exampleInitial : JsVal :=
  obj [("customScrollbars", bool true),
       ("layout", obj [("style", str "layout1"),
                       ("config", obj [("mode", str "boxed"), ("scroll", str "content")])]),
       ("theme", obj [("main", exampleTheme), ("navbar", exampleTheme),
                      ("toolbar", exampleTheme), ("footer", exampleTheme)]),
       ("direction", str "ltr"),
       ("defaultAuth", arr [str "admin"]),
       ("loginRedirectUrl", str "/")]

/-- The value `exampleDefaults` with the direction `rtl`. -/
def exampleRtl : JsVal :=
  obj [("layout", obj [("style", str "layout1"),
                       ("config", obj [("mode", str "boxed"), ("scroll", str "content")])]),
       ("theme", obj [("main", exampleTheme), ("navbar", exampleTheme),
                      ("toolbar", exampleTheme), ("footer", exampleTheme)]),
       ("direction", str "rtl"),
       ("defaultAuth", arr [str "admin", str "staff"])]

/-- The value `exampleDefaults` after a patch that names the layout style `layout2`. -/
def exampleLayout2 : JsVal :=
  obj [("layout", obj [("style", str "layout2"),
                       ("config", obj [("mode", str "fullwidth"), ("scroll", str "content")])]),
       ("theme", obj [("main", exampleTheme), ("navbar", exampleTheme),
                      ("toolbar", exampleTheme), ("footer", exampleTheme)]),
       ("direction", str "ltr"),
       ("defaultAuth", arr [str "admin", str "staff"])]

/-- A patch that does not set `layout.style`: an array for `defaultAuth` and `undefined` for
`direction`. -/
def examplePatch : JsVal :=
  obj [("defaultAuth", arr [str "user"]), ("direction", undef)]

/-- The value `exampleDefaults` after `examplePatch`. -/
def examplePatched : JsVal :=
  obj [("layout", obj [("style", str "layout1"),
                       ("config", obj [("mode", str "boxed"), ("scroll", str "content")])]),
       ("theme", obj [("main", exampleTheme), ("navbar", exampleTheme),
                      ("toolbar", exampleTheme), ("footer", exampleTheme)]),
       ("direction", str "ltr"),
       ("defaultAuth", arr [str "user", str "staff"])]

/-- A state whose `current` has moved away from its `defaults`. -/
def exampleEdited : SettingsState :=
  { initial := exampleDefaults, defaults := exampleDefaults, current := exampleRtl }

/-- A state whose `defaults` is `undefined`. -/
def exampleUndefinedDefaults : SettingsState :=
  { initial := exampleDefaults, defaults := undef, current := exampleDefaults }

/-- The light variant of `exampleTheme`. -/
def exampleLightTheme : JsVal :=
  obj [("palette", obj
    [("mode", str "light"),
     ("divider", str "#e2e8f0"),
     ("background", obj [("paper", str "#FFFFFF"), ("default", str "#F7F7F7")]),
     ("text", obj [("primary", str "rgb(17,24,39)")])])]

/-- A theme that sets the palette mode only. -/
def exampleLightPatch : JsVal :=
  obj [("palette", obj [("mode", str "light")])]

/-- The theme `exampleLightPatch` merged over `exampleTheme`. -/
def exampleMergedTheme : JsVal :=
  obj [("palette", obj [("mode", str "light"), ("divider", str "#334155")])]

/-- The value `exampleDefaults` with `exampleMergedTheme` in the four theme slots. -/
def exampleThemed : JsVal :=
  obj [("layout", obj [("style", str "layout1"),
                       ("config", obj [("mode", str "boxed"), ("scroll", str "content")])]),
       ("theme", obj [("main", exampleMergedTheme), ("navbar", exampleMergedTheme),
                      ("toolbar", exampleMergedTheme), ("footer", exampleMergedTheme)]),
       ("direction", str "ltr"),
       ("defaultAuth", arr [str "admin", str "staff"])]

end SettingsSlice

/-! ## Decidable equality -/

namespace JsVal

mutual
theorem beq_iff : ∀ a b : JsVal, beq a b = true ↔ a = b
  | undef, b => by cases b <;> simp [beq]
  | null, b => by cases b <;> simp [beq]
  | bool a, b => by cases b <;> simp [beq]
  | num a, b => by cases b <;> simp [beq]
  | str a, b => by cases b <;> simp [beq]
  | arr xs, b => by cases b <;> simp [beq, beqElems_iff xs]
  | obj ps, b => by cases b <;> simp [beq, beqProps_iff ps]
theorem beqElems_iff : ∀ xs ys : List JsVal, beqElems xs ys = true ↔ xs = ys
  | [], ys => by cases ys <;> simp [beqElems]
  | x :: xs, ys => by cases ys <;> simp [beqElems, beq_iff x, beqElems_iff xs]
theorem beqProps_iff : ∀ ps qs : Props, beqProps ps qs = true ↔ ps = qs
  | [], qs => by cases qs <;> simp [beqProps]
  | (k, x) :: ps, qs => by
    cases qs with
    | nil => simp [beqProps]
    | cons q qs => obtain ⟨l, y⟩ := q; simp [beqProps, beq_iff x, beqProps_iff ps, and_assoc]
end

instance : DecidableEq JsVal := fun a b => decidable_of_iff _ (beq_iff a b)

end JsVal

deriving instance DecidableEq for SettingsSlice.StoredText
deriving instance DecidableEq for SettingsSlice.Write
deriving instance DecidableEq for SettingsSlice.SettingsState

/-! ## Own properties -/

namespace JsVal

theorem getOwn_assign_same (k : String) (v : JsVal) (ps : Props) :
    getOwn k (baseAssignValue k v ps) = some v := by
  induction ps with
  | nil => simp [baseAssignValue, getOwn]
  | cons p ps ih =>
    obtain ⟨k', v'⟩ := p
    by_cases h : k' = k <;> simp [baseAssignValue, getOwn, h, ih]

theorem getOwn_assign_other {k k' : String} (h : k ≠ k') (v : JsVal) (ps : Props) :
    getOwn k' (baseAssignValue k v ps) = getOwn k' ps := by
  induction ps with
  | nil => simp [baseAssignValue, getOwn, h]
  | cons p ps ih =>
    obtain ⟨k0, v0⟩ := p
    by_cases h0 : k0 = k
    · subst h0; simp [baseAssignValue, getOwn, h]
    · by_cases h1 : k0 = k'
      · subst h1; simp [baseAssignValue, getOwn, h0]
      · simp [baseAssignValue, getOwn, h0, h1, ih]

theorem assign_of_getOwn {k : String} {v : JsVal} {ps : Props} (h : getOwn k ps = some v) :
    baseAssignValue k v ps = ps := by
  induction ps with
  | nil => simp [getOwn] at h
  | cons p ps ih =>
    obtain ⟨k0, v0⟩ := p
    by_cases h0 : k0 = k
    · subst h0; simp [getOwn] at h; simp [baseAssignValue, h]
    · simp [getOwn, h0] at h; simp [baseAssignValue, h0, ih h]

theorem assign_of_absent {k : String} (v : JsVal) {ps : Props} (h : getOwn k ps = none) :
    baseAssignValue k v ps = ps ++ [(k, v)] := by
  induction ps with
  | nil => simp [baseAssignValue]
  | cons p ps ih =>
    obtain ⟨k0, v0⟩ := p
    by_cases h0 : k0 = k
    · subst h0; simp [getOwn] at h
    · simp [getOwn, h0] at h; simp [baseAssignValue, h0, ih h]

theorem getOwn_append (k : String) (ps qs : Props) :
    getOwn k (ps ++ qs) = (getOwn k ps).orElse fun _ => getOwn k qs := by
  induction ps with
  | nil => simp [getOwn]
  | cons p ps ih =>
    obtain ⟨k0, v0⟩ := p
    by_cases h0 : k0 = k <;> simp [getOwn, h0, ih]

theorem getOwn_assignMergeValue_same (object : Props) (k : String) (v : JsVal)
    (hv : isObject v = false) :
    getOwn k (assignMergeValue object k v) = some (assignMergeElem (getOwn k object) v) := by
  cases v <;> simp [assignMergeValue, assignMergeElem, getOwn_assign_same] at *
  cases h : getOwn k object <;> simp [h, getOwn_assign_same]

theorem getOwn_assignMergeValue_other (object : Props) {k k' : String} (h : k ≠ k')
    (v : JsVal) : getOwn k' (assignMergeValue object k v) = getOwn k' object := by
  cases v <;> simp [assignMergeValue, getOwn_assign_other h]
  split <;> simp [getOwn_assign_other h]

end JsVal

/-! ## One key after a merge -/

namespace JsVal

theorem baseMerge_cons (object : Props) (key : String) (srcValue : JsVal) (rest : Props) :
    baseMerge object ((key, srcValue) :: rest) =
      if objectPrototypeKeys.contains key then none
      else if isObject srcValue then
        match baseMergeDeep (safeGet object key) srcValue with
        | some newValue => baseMerge (baseAssignValue key newValue object) rest
        | none => none
      else baseMerge (assignMergeValue object key srcValue) rest := by
  rw [baseMerge]

/-- One step of `baseMerge`: the destination after the first property of the source. -/
theorem baseMerge_step {object : Props} {key : String} {srcValue : JsVal} {rest r : Props}
    (h : baseMerge object ((key, srcValue) :: rest) = some r) :
    objectPrototypeKeys.contains key = false ∧
    ∃ nv, mergeValue (getOwn key object) srcValue = some nv ∧
      ∃ object', baseMerge object' rest = some r ∧ getOwn key object' = some nv ∧
        (∀ k', key ≠ k' → getOwn k' object' = getOwn k' object) ∧
        (isObject srcValue = true → object' = baseAssignValue key nv object) ∧
        (isObject srcValue = false → object' = assignMergeValue object key srcValue) := by
  rw [baseMerge_cons] at h
  by_cases hp : objectPrototypeKeys.contains key = true
  · rw [if_pos hp] at h; cases h
  · rw [if_neg hp] at h
    refine ⟨by simpa using hp, ?_⟩
    by_cases ho : isObject srcValue = true
    · simp only [ho, if_true] at h
      cases hd : baseMergeDeep (safeGet object key) srcValue with
      | none => simp [hd] at h
      | some nv =>
        simp only [hd] at h
        refine ⟨nv, by simpa [mergeValue, ho, safeGet] using hd, _, h, getOwn_assign_same _ _ _,
          fun k' hk => getOwn_assign_other hk _ _, fun _ => rfl, fun hf => by simp [ho] at hf⟩
    · have ho' : isObject srcValue = false := by simpa using ho
      simp only [ho', Bool.false_eq_true, if_false] at h
      refine ⟨assignMergeElem (getOwn key object) srcValue, by simp [mergeValue, ho'], _, h,
        getOwn_assignMergeValue_same _ _ _ ho',
        fun k' hk => getOwn_assignMergeValue_other _ hk _, fun hf => by simp [ho'] at hf,
        fun _ => rfl⟩

theorem wfProps_cons {k : String} {v : JsVal} {ps : Props} (h : wfProps ((k, v) :: ps) = true) :
    objectPrototypeKeys.contains k = false ∧ getOwn k ps = none ∧ wf v = true ∧
      wfProps ps = true := by
  simpa [wfProps, and_assoc] using h

/-- A key the source does not carry is left alone. -/
theorem baseMerge_getOwn_of_absent {k : String} :
    ∀ (ps object r : Props), getOwn k ps = none → baseMerge object ps = some r →
      getOwn k r = getOwn k object
  | [], object, r, _, h => by
    rw [baseMerge] at h; cases h; rfl
  | (k0, v0) :: rest, object, r, hk, h => by
    obtain ⟨_, nv, _, object', hrest, _, hframe, _⟩ := baseMerge_step h
    have h0 : k0 ≠ k := by
      intro e; subst e; simp [getOwn] at hk
    have hk' : getOwn k rest = none := by simpa [getOwn, h0] using hk
    rw [baseMerge_getOwn_of_absent rest object' r hk' hrest, hframe k h0]

/-- A key the source carries holds, after the merge, the source value merged into what the key
held before. -/
theorem baseMerge_getOwn_of_mem {k : String} {v : JsVal} :
    ∀ (ps object r : Props), wfProps ps = true → getOwn k ps = some v →
      baseMerge object ps = some r →
      ∃ nv, mergeValue (getOwn k object) v = some nv ∧ getOwn k r = some nv
  | [], _, _, _, hk, _ => by simp [getOwn] at hk
  | (k0, v0) :: rest, object, r, hwf, hk, h => by
    obtain ⟨_, nv, hnv, object', hrest, hget, hframe, _⟩ := baseMerge_step h
    obtain ⟨_, habs, _, hwf'⟩ := wfProps_cons hwf
    by_cases h0 : k0 = k
    · subst h0
      have hv : v0 = v := by simpa [getOwn] using hk
      subst hv
      exact ⟨nv, hnv, by rw [baseMerge_getOwn_of_absent rest object' r habs hrest, hget]⟩
    · have hk' : getOwn k rest = some v := by simpa [getOwn, h0] using hk
      obtain ⟨nv', h1, h2⟩ := baseMerge_getOwn_of_mem rest object' r hwf' hk' hrest
      exact ⟨nv', by rw [← hframe k h0]; exact h1, h2⟩

end JsVal

/-! ## Well-formed values stay well formed -/

namespace JsVal

theorem baseMergeElems_cons (object : List JsVal) (srcValue : JsVal) (rest : List JsVal) :
    baseMergeElems object (srcValue :: rest) =
      match mergeValue object.head? srcValue with
      | some newValue =>
        match baseMergeElems object.tail rest with
        | some tl => some (newValue :: tl)
        | none => none
      | none => none := by
  rw [baseMergeElems]; rfl

theorem baseMergeElems_step {object : List JsVal} {srcValue : JsVal} {rest r : List JsVal}
    (h : baseMergeElems object (srcValue :: rest) = some r) :
    ∃ nv tl, mergeValue object.head? srcValue = some nv ∧
      baseMergeElems object.tail rest = some tl ∧ r = nv :: tl := by
  rw [baseMergeElems_cons] at h
  cases h1 : mergeValue object.head? srcValue with
  | none => simp [h1] at h
  | some nv =>
    cases h2 : baseMergeElems object.tail rest with
    | none => simp [h1, h2] at h
    | some tl =>
      simp only [h1, h2] at h
      exact ⟨nv, tl, rfl, rfl, by cases h; rfl⟩

theorem baseMergeDeep_arr {objValue : JsVal} {xs : List JsVal} {r : JsVal}
    (h : baseMergeDeep objValue (arr xs) = some r) :
    ∃ os rs, arrayTarget objValue = some os ∧ baseMergeElems os xs = some rs ∧ r = arr rs := by
  rw [baseMergeDeep] at h
  cases h1 : arrayTarget objValue with
  | none => simp [h1] at h
  | some os =>
    cases h2 : baseMergeElems os xs with
    | none => simp [h1, h2] at h
    | some rs => simp only [h1, h2, Option.map] at h; exact ⟨os, rs, rfl, h2, by cases h; rfl⟩

theorem baseMergeDeep_obj {objValue : JsVal} {ps : Props} {r : JsVal}
    (h : baseMergeDeep objValue (obj ps) = some r) :
    ∃ os rs, objectTarget objValue = some os ∧ baseMerge os ps = some rs ∧ r = obj rs := by
  rw [baseMergeDeep] at h
  cases h1 : objectTarget objValue with
  | none => simp [h1] at h
  | some os =>
    cases h2 : baseMerge os ps with
    | none => simp [h1, h2] at h
    | some rs => simp only [h1, h2, Option.map] at h; exact ⟨os, rs, rfl, h2, by cases h; rfl⟩

theorem baseMergeDeep_of_not_isObject (o : JsVal) {v : JsVal} (h : isObject v = false) :
    baseMergeDeep o v = some v := by
  cases v <;> simp [isObject, baseMergeDeep] at *

theorem wf_of_not_isObject {v : JsVal} (h : isObject v = false) : wf v = true := by
  cases v <;> simp [isObject, wf] at *

theorem wf_of_getOwn {k : String} {v : JsVal} :
    ∀ {ps : Props}, wfProps ps = true → getOwn k ps = some v → wf v = true
  | [], _, h => by simp [getOwn] at h
  | (k0, v0) :: ps, hwf, h => by
    obtain ⟨_, _, hv, hps⟩ := wfProps_cons hwf
    by_cases h0 : k0 = k
    · subst h0; simp [getOwn] at h; subst h; exact hv
    · simp [getOwn, h0] at h; exact wf_of_getOwn hps h

theorem wf_safeGet {ps : Props} (h : wfProps ps = true) (k : String) :
    wf (safeGet ps k) = true := by
  unfold safeGet
  cases hk : getOwn k ps with
  | none => rfl
  | some v => exact wf_of_getOwn h hk

theorem wfProps_assign {k : String} {v : JsVal} (hk : objectPrototypeKeys.contains k = false)
    (hv : wf v = true) : ∀ {ps : Props}, wfProps ps = true →
      wfProps (baseAssignValue k v ps) = true
  | [], _ => by simp [baseAssignValue, wfProps, getOwn, hv]; simpa using hk
  | (k0, v0) :: ps, hwf => by
    obtain ⟨h1, h2, h3, h4⟩ := wfProps_cons hwf
    by_cases h0 : k0 = k
    · subst h0
      simp only [baseAssignValue, if_true, wfProps, h1, h2, hv, h4]; rfl
    · simp only [baseAssignValue, h0, if_false, wfProps, h1, h3, wfProps_assign hk hv h4,
        getOwn_assign_other (Ne.symm h0), h2]; rfl

theorem wfProps_assignMergeValue {k : String} {v : JsVal}
    (hk : objectPrototypeKeys.contains k = false) (hv : wf v = true) {ps : Props}
    (h : wfProps ps = true) : wfProps (assignMergeValue ps k v) = true := by
  cases v <;> simp only [assignMergeValue] <;> try exact wfProps_assign hk hv h
  split
  · exact h
  · exact wfProps_assign hk hv h

theorem wfElems_map {α : Type} (f : α → JsVal) (hf : ∀ a, wf (f a) = true) :
    ∀ l : List α, wfElems (l.map f) = true
  | [] => rfl
  | a :: l => by simp [wfElems, hf a, wfElems_map f hf l]

theorem wfElems_arrayTarget {o : JsVal} {os : List JsVal} (hwf : wf o = true)
    (h : arrayTarget o = some os) : wfElems os = true := by
  cases o with
  | arr xs => simp [arrayTarget] at h; subst h; simpa [wf] using hwf
  | obj ps =>
    simp only [arrayTarget] at h
    cases hl : arrayLikeLength ps with
    | none => simp [hl] at h; subst h; rfl
    | some n =>
      simp only [hl, copyArray] at h
      split at h
      · cases h
        exact wfElems_map _ (fun i => wf_safeGet (by simpa [wf] using hwf) _) _
      · cases h
  | _ => simp [arrayTarget] at h; subst h; rfl

theorem wfProps_objectTarget {o : JsVal} {os : Props} (hwf : wf o = true)
    (h : objectTarget o = some os) : wfProps os = true := by
  cases o with
  | obj ps => simp [objectTarget] at h; subst h; simpa [wf] using hwf
  | arr xs => simp [objectTarget] at h
  | _ => simp [objectTarget] at h; subst h; rfl

theorem wf_getD {o : Option JsVal} (h : ∀ v, o = some v → wf v = true) :
    wf (o.getD undef) = true := by
  cases o with
  | none => rfl
  | some v => exact h v rfl

theorem wfElems_head {os : List JsVal} (h : wfElems os = true) :
    ∀ v, os.head? = some v → wf v = true := by
  intro v hv
  cases os with
  | nil => simp at hv
  | cons x xs => simp at hv; subst hv; simp [wfElems] at h; exact h.1

theorem wfElems_tail {os : List JsVal} (h : wfElems os = true) : wfElems os.tail = true := by
  cases os with
  | nil => rfl
  | cons x xs => simp [wfElems] at h; exact h.2

theorem wf_assignMergeElem {o : Option JsVal} (h : ∀ v, o = some v → wf v = true)
    {v : JsVal} (hv : isObject v = false) : wf (assignMergeElem o v) = true := by
  cases v <;> simp [assignMergeElem, wf, isObject] at *
  exact wf_getD h

mutual
theorem wf_baseMergeDeep : ∀ (src o r : JsVal), wf o = true →
    baseMergeDeep o src = some r → wf r = true
  | arr xs, o, r, ho, h => by
    obtain ⟨os, rs, h1, h2, rfl⟩ := baseMergeDeep_arr h
    simpa [wf] using wfElems_baseMergeElems xs os rs (wfElems_arrayTarget ho h1) h2
  | obj ps, o, r, ho, h => by
    obtain ⟨os, rs, h1, h2, rfl⟩ := baseMergeDeep_obj h
    simpa [wf] using wfProps_baseMerge ps os rs (wfProps_objectTarget ho h1) h2
  | undef, o, r, _, h => by
    simp [baseMergeDeep] at h; subst h; rfl
  | null, o, r, _, h => by
    simp [baseMergeDeep] at h; subst h; rfl
  | bool _, o, r, _, h => by
    simp [baseMergeDeep] at h; subst h; rfl
  | num _, o, r, _, h => by
    simp [baseMergeDeep] at h; subst h; rfl
  | str _, o, r, _, h => by
    simp [baseMergeDeep] at h; subst h; rfl
theorem wfProps_baseMerge : ∀ (ps object r : Props), wfProps object = true →
    baseMerge object ps = some r → wfProps r = true
  | [], object, r, ho, h => by rw [baseMerge] at h; cases h; exact ho
  | (k0, v0) :: rest, object, r, ho, h => by
    obtain ⟨hp, nv, hnv, object', hrest, _, _, hobj, hsc⟩ := baseMerge_step h
    refine wfProps_baseMerge rest object' r ?_ hrest
    by_cases hv : isObject v0 = true
    · rw [hobj hv]
      refine wfProps_assign hp ?_ ho
      simp only [mergeValue, hv, if_true] at hnv
      exact wf_baseMergeDeep v0 _ nv (wf_getD fun v h => wf_of_getOwn ho h) hnv
    · have hv' : isObject v0 = false := by simpa using hv
      rw [hsc hv']
      exact wfProps_assignMergeValue hp (wf_of_not_isObject hv') ho
theorem wfElems_baseMergeElems : ∀ (xs object r : List JsVal), wfElems object = true →
    baseMergeElems object xs = some r → wfElems r = true
  | [], object, r, ho, h => by rw [baseMergeElems] at h; cases h; exact ho
  | x :: rest, object, r, ho, h => by
    obtain ⟨nv, tl, h1, h2, rfl⟩ := baseMergeElems_step h
    have htl := wfElems_baseMergeElems rest object.tail tl (wfElems_tail ho) h2
    have hnv : wf nv = true := by
      by_cases hv : isObject x = true
      · simp only [mergeValue, hv, if_true] at h1
        exact wf_baseMergeDeep x _ nv (wf_getD (wfElems_head ho)) h1
      · have hv' : isObject x = false := by simpa using hv
        simp only [mergeValue, hv', Bool.false_eq_true, if_false] at h1
        cases h1
        exact wf_assignMergeElem (wfElems_head ho) hv'
    simp [wfElems, hnv, htl]
end

end JsVal

/-! ## Merging into an empty destination copies, merging twice changes nothing -/

namespace JsVal

theorem arrayTarget_of_not_isObject {o : JsVal} (h : isObject o = false) :
    arrayTarget o = some [] := by
  cases o <;> simp [isObject, arrayTarget] at *

theorem objectTarget_of_not_isObject {o : JsVal} (h : isObject o = false) :
    objectTarget o = some [] := by
  cases o <;> simp [isObject, objectTarget] at *

theorem wfElems_cons {x : JsVal} {xs : List JsVal} (h : wfElems (x :: xs) = true) :
    wf x = true ∧ wfElems xs = true := by
  simpa [wfElems] using h

mutual
theorem baseMergeDeep_copy : ∀ (v o : JsVal), wf v = true → isObject o = false →
    baseMergeDeep o v = some v
  | arr xs, o, hv, ho => by
    rw [baseMergeDeep, arrayTarget_of_not_isObject ho]
    simp [baseMergeElems_copy xs (by simpa [wf] using hv)]
  | obj ps, o, hv, ho => by
    rw [baseMergeDeep, objectTarget_of_not_isObject ho]
    simp [baseMerge_copy ps [] (by simpa [wf] using hv) (fun _ _ => rfl)]
  | undef, o, _, _ => by simp [baseMergeDeep]
  | null, o, _, _ => by simp [baseMergeDeep]
  | bool _, o, _, _ => by simp [baseMergeDeep]
  | num _, o, _, _ => by simp [baseMergeDeep]
  | str _, o, _, _ => by simp [baseMergeDeep]
theorem baseMerge_copy : ∀ (ps acc : Props), wfProps ps = true →
    (∀ k, getOwn k ps ≠ none → getOwn k acc = none) → baseMerge acc ps = some (acc ++ ps)
  | [], acc, _, _ => by simp [baseMerge]
  | (k0, v0) :: rest, acc, hwf, hdis => by
    obtain ⟨hp, habs, hv, hrest⟩ := wfProps_cons hwf
    have hk0 : getOwn k0 acc = none := hdis k0 (by simp [getOwn])
    have hdis' : ∀ k, getOwn k rest ≠ none → getOwn k (acc ++ [(k0, v0)]) = none := by
      intro k hk
      have hne : k0 ≠ k := by
        intro e; subst e; exact hk habs
      have : getOwn k acc = none := hdis k (by simp [getOwn, hne, hk])
      simp [getOwn_append, this, getOwn, hne]
    have ih := baseMerge_copy rest (acc ++ [(k0, v0)]) hrest hdis'
    rw [baseMerge_cons, hp]
    simp only [Bool.false_eq_true, if_false]
    by_cases ho : isObject v0 = true
    · simp only [ho, if_true]
      have : baseMergeDeep (safeGet acc k0) v0 = some v0 :=
        baseMergeDeep_copy v0 _ hv (by simp [safeGet, hk0, isObject])
      rw [this]
      simp only [assign_of_absent v0 hk0, ih, List.append_assoc, List.singleton_append]
    · have ho' : isObject v0 = false := by simpa using ho
      simp only [ho', Bool.false_eq_true, if_false]
      have : assignMergeValue acc k0 v0 = acc ++ [(k0, v0)] := by
        cases v0 <;> simp [assignMergeValue, hk0, assign_of_absent _ hk0]
      rw [this, ih]; simp
theorem baseMergeElems_copy : ∀ (xs : List JsVal), wfElems xs = true →
    baseMergeElems [] xs = some xs
  | [], _ => by simp [baseMergeElems]
  | x :: rest, hwf => by
    obtain ⟨hx, hrest⟩ := wfElems_cons hwf
    rw [baseMergeElems_cons]
    have h1 : mergeValue ([] : List JsVal).head? x = some x := by
      by_cases ho : isObject x = true
      · simp only [mergeValue, ho, if_true]
        exact baseMergeDeep_copy x _ hx rfl
      · have ho' : isObject x = false := by simpa using ho
        simp only [mergeValue, ho', Bool.false_eq_true, if_false]
        cases x <;> simp [assignMergeElem]
    simp only [List.head?_nil] at h1
    simp [h1, baseMergeElems_copy rest hrest]
end

mutual
theorem baseMergeDeep_idem : ∀ (v o r : JsVal), wf v = true →
    baseMergeDeep o v = some r → baseMergeDeep r v = some r
  | arr xs, o, r, hv, h => by
    obtain ⟨os, rs, _, h2, rfl⟩ := baseMergeDeep_arr h
    rw [baseMergeDeep]
    simp [arrayTarget, baseMergeElems_idem xs os rs (by simpa [wf] using hv) h2]
  | obj ps, o, r, hv, h => by
    obtain ⟨os, rs, _, h2, rfl⟩ := baseMergeDeep_obj h
    rw [baseMergeDeep]
    simp [objectTarget, baseMerge_idem ps os rs (by simpa [wf] using hv) h2]
  | undef, o, r, _, h => by simp [baseMergeDeep] at h ⊢; exact h
  | null, o, r, _, h => by simp [baseMergeDeep] at h ⊢; exact h
  | bool _, o, r, _, h => by simp [baseMergeDeep] at h ⊢; exact h
  | num _, o, r, _, h => by simp [baseMergeDeep] at h ⊢; exact h
  | str _, o, r, _, h => by simp [baseMergeDeep] at h ⊢; exact h
theorem baseMerge_idem : ∀ (ps object r : Props), wfProps ps = true →
    baseMerge object ps = some r → baseMerge r ps = some r
  | [], object, r, _, _ => by simp [baseMerge]
  | (k0, v0) :: rest, object, r, hwf, h => by
    obtain ⟨hp, habs, hv, hrest⟩ := wfProps_cons hwf
    obtain ⟨_, nv, hnv, object', hmerge, hget, _, _, _⟩ := baseMerge_step h
    have hr : getOwn k0 r = some nv := by
      rw [baseMerge_getOwn_of_absent rest object' r habs hmerge, hget]
    have ih := baseMerge_idem rest object' r hrest hmerge
    rw [baseMerge_cons, hp]
    simp only [Bool.false_eq_true, if_false]
    by_cases ho : isObject v0 = true
    · simp only [ho, if_true]
      simp only [mergeValue, ho, if_true] at hnv
      have : baseMergeDeep (safeGet r k0) v0 = some nv := by
        simp only [safeGet, hr, Option.getD]
        exact baseMergeDeep_idem v0 _ nv hv hnv
      rw [this]
      simp only [assign_of_getOwn hr, ih]
    · have ho' : isObject v0 = false := by simpa using ho
      simp only [ho', Bool.false_eq_true, if_false]
      simp only [mergeValue, ho', Bool.false_eq_true, if_false] at hnv
      have : assignMergeValue r k0 v0 = r := by
        cases v0 <;> simp [assignMergeValue, hr, assignMergeElem] at hnv ⊢ <;>
          (subst hnv; exact assign_of_getOwn hr)
      rw [this, ih]
theorem baseMergeElems_idem : ∀ (xs object r : List JsVal), wfElems xs = true →
    baseMergeElems object xs = some r → baseMergeElems r xs = some r
  | [], object, r, _, _ => by simp [baseMergeElems]
  | x :: rest, object, r, hwf, h => by
    obtain ⟨hx, hrest⟩ := wfElems_cons hwf
    obtain ⟨nv, tl, h1, h2, rfl⟩ := baseMergeElems_step h
    rw [baseMergeElems_cons]
    have h1' : mergeValue (nv :: tl).head? x = some nv := by
      by_cases ho : isObject x = true
      · simp only [mergeValue, ho, if_true] at h1 ⊢
        exact baseMergeDeep_idem x _ nv hx h1
      · have ho' : isObject x = false := by simpa using ho
        simp only [mergeValue, ho', Bool.false_eq_true, if_false] at h1 ⊢
        cases x <;> simp [assignMergeElem] at h1 ⊢ <;> exact h1
    simp only [List.head?_cons] at h1'
    simp [h1', baseMergeElems_idem rest object.tail tl hrest h2]
end

end JsVal

/-! ## The variadic merge and the serializer -/

namespace JsVal

theorem wfProps_mergeSource {object r : Props} (source : JsVal) (ho : wfProps object = true)
    (h : mergeSource object source = some r) : wfProps r = true := by
  cases source with
  | obj ps => exact wfProps_baseMerge ps object r ho (by simpa [mergeSource] using h)
  | arr xs => exact wfProps_baseMerge _ object r ho (by simpa [mergeSource] using h)
  | str s =>
    simp only [mergeSource] at h
    split at h
    · cases h; exact ho
    · cases h
  | _ => simp [mergeSource] at h; subst h; exact ho

theorem wfProps_merge : ∀ (sources : List JsVal) (object r : Props), wfProps object = true →
    merge object sources = some r → wfProps r = true
  | [], object, r, ho, h => by simp [merge] at h; subst h; exact ho
  | s :: rest, object, r, ho, h => by
    rw [merge] at h
    cases h1 : mergeSource object s with
    | none => simp [h1] at h
    | some o' =>
      simp only [h1] at h
      exact wfProps_merge rest o' r (wfProps_mergeSource s ho h1) h

theorem merge_cons {object r : Props} {source : JsVal} {rest : List JsVal}
    (h : merge object (source :: rest) = some r) :
    ∃ o', mergeSource object source = some o' ∧ merge o' rest = some r := by
  rw [merge] at h
  cases h1 : mergeSource object source with
  | none => simp [h1] at h
  | some o' => simp only [h1] at h; exact ⟨o', rfl, h⟩

theorem mergeSource_nil_obj {ps : Props} (h : wfProps ps = true) :
    mergeSource [] (obj ps) = some ps := by
  simp [mergeSource, baseMerge_copy ps [] h (fun _ _ => rfl)]

mutual
theorem jsonValue_of_jsonExact : ∀ v : JsVal, jsonExact v = true → jsonValue v = v
  | arr xs, h => by
    simp only [jsonValue, jsonElems_of_jsonExact xs (by simpa [jsonExact] using h)]
  | obj ps, h => by
    simp only [jsonValue, jsonProps_of_jsonExact ps (by simpa [jsonExact] using h)]
  | undef, h => by simp [jsonExact] at h
  | null, _ => rfl
  | bool _, _ => rfl
  | num n, h => by
    cases n <;> simp [jsonExact] at h
    rfl
  | str _, _ => rfl
theorem jsonElems_of_jsonExact : ∀ xs : List JsVal, jsonExactElems xs = true →
    jsonElems xs = xs
  | [], _ => rfl
  | x :: xs, h => by
    have h' : jsonExact x = true ∧ jsonExactElems xs = true := by
      simpa [jsonExactElems] using h
    simp only [jsonElems, jsonValue_of_jsonExact x h'.1, jsonElems_of_jsonExact xs h'.2]
theorem jsonProps_of_jsonExact : ∀ ps : Props, jsonExactProps ps = true →
    jsonProps ps = ps
  | [], _ => rfl
  | (k, v) :: ps, h => by
    have h' : jsonExact v = true ∧ jsonExactProps ps = true := by
      simpa [jsonExactProps] using h
    have hv := jsonValue_of_jsonExact v h'.1
    have hps := jsonProps_of_jsonExact ps h'.2
    cases v <;> simp_all [jsonProps, jsonExact]
end

end JsVal

namespace SettingsSlice
open JsVal

theorem mergeCopy_of_wf {ps : Props} (h : wfProps ps = true) :
    mergeCopy (obj ps) = some (obj ps) := by
  simp [mergeCopy, merge, mergeSource_nil_obj h]

theorem generateSettings_inv {t : Props} {D P R : JsVal}
    (h : generateSettings t D P = some R) :
    ∃ key rs, propertyKey (optGet (optGet P "layout") "style") = some key ∧
      merge [] [D, obj [("layout", obj [("config", optGet (safeGet t key) "defaults")])], P]
        = some rs ∧ R = obj rs := by
  unfold generateSettings at h
  cases hk : propertyKey (optGet (optGet P "layout") "style") with
  | none => simp [hk] at h
  | some key =>
    simp only [hk] at h
    cases hm : merge [] [D, obj [("layout", obj [("config",
        optGet (safeGet t key) "defaults")])], P] with
    | none => simp [hm] at h
    | some rs =>
      simp only [hm, Option.map] at h
      exact ⟨key, rs, rfl, hm, by cases h; rfl⟩

/-- Every result of `generateSettings` is a well-formed plain object. -/
theorem generateSettings_wf {t : Props} {D P R : JsVal}
    (h : generateSettings t D P = some R) : ∃ rs, R = obj rs ∧ wfProps rs = true := by
  obtain ⟨key, rs, _, hm, rfl⟩ := generateSettings_inv h
  exact ⟨rs, rfl, wfProps_merge _ [] rs rfl hm⟩

theorem mergeCopy_generateSettings {t : Props} {D P R : JsVal}
    (h : generateSettings t D P = some R) : mergeCopy R = some R := by
  obtain ⟨rs, rfl, hwf⟩ := generateSettings_wf h
  exact mergeCopy_of_wf hwf

theorem isSettings_iff {v : JsVal} : isSettings v = true ↔ ∃ ps, v = obj ps ∧ wfProps ps = true := by
  cases v <;> simp [isSettings]

end SettingsSlice

/-! ## The reducers in closed form -/

namespace SettingsSlice
open JsVal

theorem setSettings_eq (env : Env) (s : SettingsState) (P : JsVal) :
    setSettings env s P = (generateSettings env.themeLayoutConfigs s.defaults P).map
      fun g => ({ s with current := g }, [saveSettingsToLocalStorage g]) := by
  unfold setSettings
  cases generateSettings env.themeLayoutConfigs s.defaults P <;> rfl

theorem setUserFulfilled_eq (env : Env) (s : SettingsState) (payload : JsVal) :
    setUserFulfilled env s payload =
      (generateSettings env.themeLayoutConfigs s.defaults
        (optGet (optGet payload "data") "settings")).map
      fun g => ({ s with defaults := g, current := g }, [saveSettingsToLocalStorage g]) := by
  unfold setUserFulfilled
  cases h : generateSettings env.themeLayoutConfigs s.defaults
      (optGet (optGet payload "data") "settings") with
  | none => rfl
  | some g => simp [mergeCopy_generateSettings h]

theorem setDefaultSettings_eq (env : Env) (s : SettingsState) (val : JsVal) :
    setDefaultSettings env s val =
      (generateSettings env.themeLayoutConfigs s.defaults val).map
      fun g => ({ s with defaults := g, current := g }, [saveSettingsToLocalStorage g]) := by
  unfold setDefaultSettings
  cases h : generateSettings env.themeLayoutConfigs s.defaults val with
  | none => rfl
  | some g => simp [mergeCopy_generateSettings h]

theorem dispatchSetDefaultSettings_eq (env : Env) (s : SettingsState) (val : JsVal) :
    dispatchSetDefaultSettings env s val =
      (generateSettings env.themeLayoutConfigs s.defaults val).map
      fun g => ({ s with defaults := g, current := g },
        [saveSettingsToLocalStorage g, saveSettingsToLocalStorage g]) := by
  unfold dispatchSetDefaultSettings
  rw [setDefaultSettings_eq]
  cases h : generateSettings env.themeLayoutConfigs s.defaults val with
  | none => rfl
  | some g => simp [setDefaultSettingsFulfilled]

theorem resetSettings_eq {s : SettingsState} (h : isSettings s.defaults = true) :
    resetSettings s =
      some ({ s with current := s.defaults }, [saveSettingsToLocalStorage s.defaults]) := by
  obtain ⟨ps, hps, hwf⟩ := isSettings_iff.mp h
  unfold resetSettings
  simp only [hps, mergeCopy_of_wf hwf]

theorem initialSettingsWith_wf {env : Env} {loaded I : JsVal}
    (h : initialSettingsWith env loaded = some I) : ∃ ps, I = obj ps ∧ wfProps ps = true := by
  unfold initialSettingsWith at h
  cases hi : initialSetting env with
  | none => simp [hi] at h
  | some i =>
    simp only [hi, Option.map_eq_some'] at h
    obtain ⟨ps, hm, rfl⟩ := h
    exact ⟨ps, rfl, wfProps_merge _ [] ps rfl hm⟩

theorem initialState_eq (env : Env) :
    initialState env = (getInitialSettings env).map
      fun I => { initial := I, defaults := I, current := I } := by
  unfold initialState
  cases h : getInitialSettings env with
  | none => rfl
  | some I =>
    obtain ⟨ps, rfl, hwf⟩ := initialSettingsWith_wf h
    simp [mergeCopy_of_wf hwf]

theorem setInitialSettings_eq (env : Env) (s : SettingsState) :
    setInitialSettings env s = (getInitialSettings env).map
      fun I => ({ initial := I, defaults := I, current := I },
        [saveSettingsToLocalStorage I]) := by
  unfold setInitialSettings
  rw [initialState_eq]
  cases h : getInitialSettings env with
  | none => rfl
  | some I =>
    obtain ⟨ps, rfl, hwf⟩ := initialSettingsWith_wf h
    have hst : wfProps [("initial", obj ps), ("defaults", obj ps), ("current", obj ps)]
        = true := by
      simp [wfProps, wf, hwf, getOwn, objectPrototypeKeys]
    simp [SettingsState.toJs, merge, mergeSource_nil_obj hst, SettingsState.ofProps, safeGet,
      getOwn]

end SettingsSlice

/-! ## Paths after a merge -/

namespace JsVal

theorem ownPath_obj_cons (ps : Props) (k : String) (ks : List String) :
    ownPath (obj ps) (k :: ks) = (getOwn k ps).bind fun w => ownPath w ks := by
  rw [ownPath]
  cases getOwn k ps <;> rfl

theorem ownPath_single (ps : Props) (k : String) : ownPath (obj ps) [k] = getOwn k ps := by
  rw [ownPath_obj_cons]
  cases getOwn k ps <;> simp [ownPath]

theorem objectTarget_getOwn {object os : Props} {k : String} (k2 : String)
    (h : objectTarget ((getOwn k object).getD undef) = some os) :
    getOwn k2 os = ownPath (obj object) [k, k2] := by
  rw [ownPath_obj_cons]
  cases hk : getOwn k object with
  | none => simp [hk, objectTarget] at h; subst h; simp [getOwn]
  | some w =>
    simp only [hk, Option.getD] at h
    cases w <;> simp [objectTarget] at h <;> subst h <;> exact (ownPath_single _ _).symm

/-- A scalar leaf of the source holds in the result. -/
theorem baseMerge_ownPath_scalar {v : JsVal} (hv : isScalar v = true) :
    ∀ (path : List String) (ps object r : Props), path ≠ [] → wfProps ps = true →
      ownPath (obj ps) path = some v → baseMerge object ps = some r →
      ownPath (obj r) path = some v
  | [], _, _, _, hne, _, _, _ => absurd rfl hne
  | k :: ks, ps, object, r, _, hwf, hp, h => by
    rw [ownPath_obj_cons] at hp ⊢
    cases hk : getOwn k ps with
    | none => simp [hk] at hp
    | some w =>
      simp only [hk, Option.bind] at hp
      obtain ⟨nv, hnv, hr⟩ := baseMerge_getOwn_of_mem ps object r hwf hk h
      simp only [hr, Option.bind]
      cases ks with
      | nil =>
        simp only [ownPath] at hp ⊢
        cases hp
        cases v <;> simp [isScalar] at hv <;>
          simp [mergeValue, isObject, assignMergeElem] at hnv <;> simp [hnv]
      | cons k2 ks' =>
        cases w with
        | obj qs =>
          simp only [mergeValue, isObject, if_true] at hnv
          obtain ⟨os, rs, _, h2, rfl⟩ := baseMergeDeep_obj hnv
          exact baseMerge_ownPath_scalar hv (k2 :: ks') qs os rs (by simp)
            (by simpa [wf] using wf_of_getOwn hwf hk) hp h2
        | _ => simp [ownPath] at hp

/-- A key two levels down that the source carries. -/
theorem baseMerge_nested_of_mem {ps object r : Props} (k k2 : String) (qs : Props)
    {v : JsVal} (hwf : wfProps ps = true) (hk : getOwn k ps = some (obj qs)) (hk2 : getOwn k2 qs = some v)
    (h : baseMerge object ps = some r) :
    ∃ c, mergeValue (ownPath (obj object) [k, k2]) v = some c ∧
      ownPath (obj r) [k, k2] = some c := by
  obtain ⟨nv, hnv, hr⟩ := baseMerge_getOwn_of_mem ps object r hwf hk h
  simp only [mergeValue, isObject, if_true] at hnv
  obtain ⟨os, rs, h1, h2, rfl⟩ := baseMergeDeep_obj hnv
  obtain ⟨c, hc, hrs⟩ := baseMerge_getOwn_of_mem qs os rs
    (by simpa [wf] using wf_of_getOwn hwf hk) hk2 h2
  refine ⟨c, ?_, ?_⟩
  · rw [← objectTarget_getOwn k2 h1]; exact hc
  · rw [ownPath_obj_cons, hr]; simp only [Option.bind]; rw [ownPath_single, hrs]

/-- A key two levels down that the source does not carry. -/
theorem baseMerge_nested_of_absent {ps object r : Props} (k k2 : String) (qs : Props)
    (hwf : wfProps ps = true) (hk : getOwn k ps = some (obj qs)) (hk2 : getOwn k2 qs = none)
    (h : baseMerge object ps = some r) :
    ownPath (obj r) [k, k2] = ownPath (obj object) [k, k2] := by
  obtain ⟨nv, hnv, hr⟩ := baseMerge_getOwn_of_mem ps object r hwf hk h
  simp only [mergeValue, isObject, if_true] at hnv
  obtain ⟨os, rs, h1, h2, rfl⟩ := baseMergeDeep_obj hnv
  rw [ownPath_obj_cons, hr]; simp only [Option.bind]
  rw [ownPath_single, baseMerge_getOwn_of_absent qs os rs hk2 h2, objectTarget_getOwn k2 h1]

/-- A top-level key that the source does not carry. -/
theorem baseMerge_ownPath_of_absent {ps object r : Props} {k : String} (ks : List String)
    (hk : getOwn k ps = none) (h : baseMerge object ps = some r) :
    ownPath (obj r) (k :: ks) = ownPath (obj object) (k :: ks) := by
  rw [ownPath_obj_cons, ownPath_obj_cons, baseMerge_getOwn_of_absent ps object r hk h]

theorem ownPath_append (q : List String) :
    ∀ (p : List String) (v : JsVal),
      ownPath v (p ++ q) = (ownPath v p).bind fun w => ownPath w q
  | [], v => by simp [ownPath]
  | k :: ks, v => by
    cases v with
    | obj ps =>
      rw [List.cons_append, ownPath_obj_cons, ownPath_obj_cons]
      cases getOwn k ps with
      | none => rfl
      | some w => simpa using ownPath_append q ks w
    | _ => simp [ownPath]

theorem objectTarget_ownPath {object os : Props} {k : String} (k2 : String)
    (ks : List String) (h : objectTarget ((getOwn k object).getD undef) = some os) :
    ownPath (obj os) (k2 :: ks) = ownPath (obj object) (k :: k2 :: ks) := by
  rw [ownPath_obj_cons object]
  cases hk : getOwn k object with
  | none => simp [hk, objectTarget] at h; subst h; simp [ownPath, getOwn]
  | some w =>
    simp only [hk, Option.getD] at h
    cases w <;> simp [objectTarget] at h <;> subst h <;> simp [ownPath, getOwn]

/-- The value at a path of the source holds, after the merge, that value merged into what the
destination held at the path. -/
theorem baseMerge_ownPath {v : JsVal} :
    ∀ (path : List String) (ps object r : Props), path ≠ [] → wfProps ps = true →
      ownPath (obj ps) path = some v → baseMerge object ps = some r →
      ∃ nv, mergeValue (ownPath (obj object) path) v = some nv ∧
        ownPath (obj r) path = some nv
  | [], _, _, _, hne, _, _, _ => absurd rfl hne
  | k :: ks, ps, object, r, _, hwf, hp, h => by
    rw [ownPath_obj_cons] at hp
    cases hk : getOwn k ps with
    | none => simp [hk] at hp
    | some w =>
      simp only [hk, Option.bind] at hp
      obtain ⟨nv0, hnv0, hr⟩ := baseMerge_getOwn_of_mem ps object r hwf hk h
      cases ks with
      | nil =>
        simp only [ownPath] at hp
        cases hp
        exact ⟨nv0, by rw [ownPath_single]; exact hnv0, by rw [ownPath_single]; exact hr⟩
      | cons k2 ks' =>
        cases w with
        | obj qs =>
          simp only [mergeValue, isObject, if_true] at hnv0
          obtain ⟨os, rs, h1, h2, rfl⟩ := baseMergeDeep_obj hnv0
          obtain ⟨nv, hnv, hrs⟩ := baseMerge_ownPath (k2 :: ks') qs os rs (by simp)
            (by simpa [wf] using wf_of_getOwn hwf hk) hp h2
          refine ⟨nv, ?_, ?_⟩
          · rw [← objectTarget_ownPath k2 ks' h1]; exact hnv
          · rw [ownPath_obj_cons, hr]; exact hrs
        | _ => simp [ownPath] at hp

theorem mergeValue_of_isScalar (o : Option JsVal) {v : JsVal} (h : isScalar v = true) :
    mergeValue o v = some v := by
  cases v <;> simp [isScalar] at h <;> simp [mergeValue, isObject, assignMergeElem]

theorem mergeValue_undef (o : Option JsVal) : mergeValue o undef = some (o.getD undef) := by
  simp [mergeValue, isObject, assignMergeElem]

/-- Merging a plain object over a plain object leaves the keys the source does not carry. -/
theorem mergeValue_obj_absent {dc rc : Props} {c : JsVal} {k : String}
    (h : mergeValue (some (obj dc)) (obj rc) = some c) (hk : getOwn k rc = none) :
    ownPath c [k] = getOwn k dc := by
  simp only [mergeValue, isObject, if_true, Option.getD] at h
  obtain ⟨os, rs, h1, h2, rfl⟩ := baseMergeDeep_obj h
  simp only [objectTarget, Option.some.injEq] at h1
  subst h1
  rw [ownPath_single, baseMerge_getOwn_of_absent rc _ rs hk h2]

/-- The source `{layout: {config: undefined}}` changes nothing when the destination holds
`layout.config`. -/
theorem baseMerge_layout_config_undef {dps dl : Props} {c : JsVal}
    (hl : getOwn "layout" dps = some (obj dl)) (hc : getOwn "config" dl = some c) :
    baseMerge dps [("layout", obj [("config", undef)])] = some dps := by
  have h1 : assignMergeValue dl "config" undef = dl := by
    simp [assignMergeValue, hc]
  simp [baseMerge_cons, baseMerge, objectPrototypeKeys, isObject, safeGet, hl, baseMergeDeep,
    objectTarget, h1, assign_of_getOwn hl]

theorem mergeSource_single {object r : Props} {source : JsVal}
    (h : merge object [source] = some r) : mergeSource object source = some r := by
  obtain ⟨o', h1, h2⟩ := merge_cons h
  simp [merge] at h2
  rw [h1, h2]

end JsVal

namespace SettingsSlice
open JsVal

/-- The three steps of the merge in `generateSettings` when both arguments are objects. -/
theorem generateSettings_steps {t dps ps : Props} {R : JsVal} (hD : wfProps dps = true)
    (h : generateSettings t (obj dps) (obj ps) = some R) :
    ∃ key o2 rs, propertyKey (optGet (optGet (obj ps) "layout") "style") = some key ∧
      baseMerge dps [("layout", obj [("config", optGet (safeGet t key) "defaults")])]
        = some o2 ∧
      baseMerge o2 ps = some rs ∧ R = obj rs := by
  obtain ⟨key, rs, hkey, hm, rfl⟩ := generateSettings_inv h
  obtain ⟨o1, h1, hm1⟩ := merge_cons hm
  rw [mergeSource_nil_obj hD] at h1
  cases h1
  obtain ⟨o2, h2, hm2⟩ := merge_cons hm1
  exact ⟨key, o2, rs, hkey, by simpa [mergeSource] using h2,
    by simpa [mergeSource] using mergeSource_single hm2, rfl⟩

end SettingsSlice

/-! ## Claims -/

namespace SettingsSlice
open JsVal

/-- C10. `selectContrastMainTheme` returns `selectMainThemeDark` for exactly the background
colours whose contrast ratio against `#ffffff` is at least 3 and `selectMainThemeLight` for all
others; with the contrast ratios 21 for `#000000` and 1 for `#ffffff` against white, black
selects the dark variant and white the light variant. -/
theorem selectContrastMainTheme_threshold (getContrastRatio : String → String → ℚ)
    (hBlack : getContrastRatio "#000000" "#ffffff" = 21)
    (hWhite : getContrastRatio "#ffffff" "#ffffff" = 1) :
    (∀ bgColor, selectContrastMainTheme getContrastRatio bgColor =
        MainThemeSelector.selectMainThemeDark ↔ 3 ≤ getContrastRatio bgColor "#ffffff") ∧
    (∀ bgColor, selectContrastMainTheme getContrastRatio bgColor =
        MainThemeSelector.selectMainThemeLight ↔ ¬ 3 ≤ getContrastRatio bgColor "#ffffff") ∧
    selectContrastMainTheme getContrastRatio "#000000" =
      MainThemeSelector.selectMainThemeDark ∧
    selectContrastMainTheme getContrastRatio "#ffffff" =
      MainThemeSelector.selectMainThemeLight := by
  have key : ∀ bgColor, selectContrastMainTheme getContrastRatio bgColor =
      if 3 ≤ getContrastRatio bgColor "#ffffff" then MainThemeSelector.selectMainThemeDark
      else MainThemeSelector.selectMainThemeLight := by
    intro bgColor
    simp [selectContrastMainTheme]
  refine ⟨?_, ?_, ?_, ?_⟩
  · intro bgColor
    rw [key]
    by_cases h : 3 ≤ getContrastRatio bgColor "#ffffff" <;> simp [h]
  · intro bgColor
    rw [key]
    by_cases h : 3 ≤ getContrastRatio bgColor "#ffffff" <;> simp [h]
  · rw [key, hBlack]; norm_num
  · rw [key, hWhite]; norm_num

/-- Witness for C10: a contrast function with the two endpoint values. -/
theorem selectContrastMainTheme_threshold_witness :
    selectContrastMainTheme (fun c _ => if c = "#000000" then 21 else 1) "#000000" =
      MainThemeSelector.selectMainThemeDark ∧
    selectContrastMainTheme (fun c _ => if c = "#000000" then 21 else 1) "#ffffff" =
      MainThemeSelector.selectMainThemeLight :=
  (selectContrastMainTheme_threshold (fun c _ => if c = "#000000" then 21 else 1)
    (by simp) (by simp)).2.2

/-- C6. When reading the key `fuseSettings` throws, or yields a text that `JSON.parse`
rejects, `loadSettingsFromLocalStorage` returns `null` (it has no exceptional result), and
`getInitialSettings` is the merge of line 72 computed with `null` for the loaded settings. -/
theorem getInitialSettings_of_unreadable_storage (env : Env)
    (h : getItem env.storage = Except.error () ∨
      ∃ text, env.storage = ReadOutcome.found text ∧ jsonParse text = Except.error ()) :
    loadSettingsFromLocalStorage env.storage = JsVal.null ∧
      getInitialSettings env = initialSettingsWith env JsVal.null := by
  have hl : loadSettingsFromLocalStorage env.storage = JsVal.null := by
    rcases h with h | ⟨text, h1, h2⟩
    · cases hs : env.storage <;> simp [hs, getItem] at h ⊢
      rfl
    · rw [h1]
      cases text <;> simp [jsonParse] at h2 ⊢ <;> rfl
  exact ⟨hl, by rw [getInitialSettings, hl]⟩

end SettingsSlice

namespace SettingsSlice
open JsVal

/-- C4.  Whatever the state is (so in particular in every state reachable from the initial
state), `setInitialSettings` yields the state whose `initial`, `defaults` and `current` all
equal the Settings value that `getInitialSettings` computed at module load. -/
theorem setInitialSettings_restores_initial (env : Env) (state : SettingsState)
    (initialSettings : JsVal) (h : getInitialSettings env = some initialSettings) :
    ∃ writes, setInitialSettings env state =
      some ({ initial := initialSettings, defaults := initialSettings,
              current := initialSettings }, writes) := by
  rw [setInitialSettings_eq, h]
  exact ⟨_, rfl⟩

theorem jsonParse_storedText {v : JsVal} (h : jsonExact v = true) :
    jsonParse (storedText (jsonStringify v)) = Except.ok v := by
  have hv := jsonValue_of_jsonExact v h
  cases v with
  | undef => simp [jsonExact] at h
  | _ => simp only [jsonStringify, storedText, jsonParse, hv]

theorem reducer_last_write (env : Env) (state state' : SettingsState) (action : Action)
    (writes : List Write) (hs : isSettings state.defaults = true)
    (h : reducer env state action = some (state', writes)) :
    writes.getLast? = some (saveSettingsToLocalStorage state'.current) := by
  cases action with
  | setSettings payload =>
    simp only [reducer, setSettings_eq, Option.map_eq_some'] at h
    obtain ⟨g, _, hg⟩ := h
    cases hg; rfl
  | setInitialSettings =>
    simp only [reducer, setInitialSettings_eq, Option.map_eq_some'] at h
    obtain ⟨g, _, hg⟩ := h
    cases hg; rfl
  | resetSettings =>
    simp only [reducer, resetSettings_eq hs] at h
    cases h; rfl
  | setDefaultSettingsFulfilled payload =>
    simp only [reducer, setDefaultSettingsFulfilled] at h
    cases h; rfl
  | setUserFulfilled payload =>
    simp only [reducer, setUserFulfilled_eq, Option.map_eq_some'] at h
    obtain ⟨g, _, hg⟩ := h
    cases hg; rfl

/-- C5, as amended.  For every state whose `defaults` is a Settings value, after each reducer
of the slice the last write to local storage is under the key `fuseSettings` and carries the
serialization of the `current` field of the state the reducer returns; that text parses back
to `current` whenever `current` survives serialization unchanged. -/
theorem reducer_persists_current (env : Env) (state state' : SettingsState) (action : Action)
    (writes : List Write) (hs : isSettings state.defaults = true)
    (h : reducer env state action = some (state', writes)) :
    ∃ text, writes.getLast? = some { key := "fuseSettings", text := text } ∧
      text = storedText (jsonStringify state'.current) ∧
      (jsonExact state'.current = true → jsonParse text = Except.ok state'.current) :=
  ⟨_, reducer_last_write env state state' action writes hs h, rfl,
    fun hx => jsonParse_storedText hx⟩

/-- C3, as amended.  One call of the full-settings-set operation makes two writes (one in the
thunk, one in the fulfilled reducer), both under the key `fuseSettings` and both carrying the
serialization of the new `current`; that text parses back to the new `current` whenever the
new `current` survives serialization unchanged (no `undefined`, no `NaN`, no infinity, safe
integers). -/
theorem dispatchSetDefaultSettings_writes (env : Env) (state state' : SettingsState)
    (val : JsVal) (writes : List Write)
    (h : dispatchSetDefaultSettings env state val = some (state', writes)) :
    ∃ text, writes = [{ key := "fuseSettings", text := text },
                      { key := "fuseSettings", text := text }] ∧
      text = storedText (jsonStringify state'.current) ∧
      (jsonExact state'.current = true → jsonParse text = Except.ok state'.current) := by
  simp only [dispatchSetDefaultSettings_eq, Option.map_eq_some'] at h
  obtain ⟨g, hg, he⟩ := h
  cases he
  obtain ⟨rs, rfl, _⟩ := generateSettings_wf hg
  refine ⟨_, rfl, rfl, ?_⟩
  intro hd
  simp only [jsonStringify, storedText, jsonParse, jsonValue_of_jsonExact _ hd]

/-- C9, as amended.  `setSettings` returns the state whose `current` is
`generateSettings(s.defaults, P)` and whose `defaults` is unchanged; `setDefaultSettings` with
its fulfilled reducer, and `setUser.fulfilled` with the settings of the profile, return the
state in which `defaults` and `current` both equal `generateSettings(s.defaults, P)`. -/
theorem update_operations_generateSettings (env : Env) (s : SettingsState) (P payload : JsVal) :
    (setSettings env s P).map Prod.fst =
      (generateSettings env.themeLayoutConfigs s.defaults P).map
        (fun g => { s with current := g }) ∧
    (dispatchSetDefaultSettings env s P).map Prod.fst =
      (generateSettings env.themeLayoutConfigs s.defaults P).map
        (fun g => { s with defaults := g, current := g }) ∧
    (setUserFulfilled env s payload).map Prod.fst =
      (generateSettings env.themeLayoutConfigs s.defaults
          (optGet (optGet payload "data") "settings")).map
        (fun g => { s with defaults := g, current := g }) := by
  rw [setSettings_eq, dispatchSetDefaultSettings_eq, setUserFulfilled_eq]
  simp only [Option.map_map]
  exact ⟨rfl, rfl, rfl⟩

theorem wfProps_modes {dark light : JsVal} (hd : wf dark = true) (hl : wf light = true) :
    wfProps (modes dark light) = true := by
  simp [modes, wfProps, wf, getOwn, objectPrototypeKeys, hd, hl]

/-- A derived theme is a fixed point of the derivation for the same mode. -/
theorem changeThemeMode_fixed (darkPaletteText lightPaletteText theme derived : JsVal)
    (mode : String) (hd : wf darkPaletteText = true) (hl : wf lightPaletteText = true)
    (h : changeThemeMode darkPaletteText lightPaletteText theme mode = some derived) :
    changeThemeMode darkPaletteText lightPaletteText derived mode = some derived := by
  unfold changeThemeMode at h ⊢
  simp only [Option.map_eq_some'] at h
  obtain ⟨rs, hm, rfl⟩ := h
  obtain ⟨o1, h1, h2⟩ := merge_cons hm
  have h2' := mergeSource_single h2
  have ho1 : wfProps o1 = true := @wfProps_mergeSource [] o1 theme rfl h1
  have hrs : wfProps rs = true := wfProps_mergeSource _ ho1 h2'
  have hM : wf (safeGet (modes darkPaletteText lightPaletteText) mode) = true :=
    wf_safeGet (wfProps_modes hd hl) mode
  have hidem : mergeSource rs (safeGet (modes darkPaletteText lightPaletteText) mode)
      = some rs := by
    cases hv : safeGet (modes darkPaletteText lightPaletteText) mode with
    | obj ps =>
      rw [hv] at h2' hM
      simp only [mergeSource] at h2' ⊢
      exact baseMerge_idem ps o1 rs (by simpa [wf] using hM) h2'
    | arr xs =>
      exfalso
      have : ∀ v, getOwn mode (modes darkPaletteText lightPaletteText) = some v →
          ∃ ps, v = obj ps := by
        intro v
        simp only [modes, getOwn]
        split
        · intro e; cases e; exact ⟨_, rfl⟩
        · split
          · intro e; cases e; exact ⟨_, rfl⟩
          · intro e; cases e
      unfold safeGet at hv
      cases hg : getOwn mode (modes darkPaletteText lightPaletteText) with
      | none => simp [hg] at hv
      | some v =>
        obtain ⟨ps, rfl⟩ := this v hg
        simp [hg] at hv
    | str s =>
      rw [hv] at h2'
      simp only [mergeSource] at h2' ⊢
      split at h2'
      · rename_i hs; simp [hs]
      · cases h2'
    | undef => rfl
    | null => rfl
    | bool b => rfl
    | num n => rfl
  simp [merge, mergeSource_nil_obj hrs, hidem]

/-- C7.  `changeThemeMode` is idempotent for every theme and every mode, `dark` and `light`
among them: `changeThemeMode(changeThemeMode(t, m), m)` equals `changeThemeMode(t, m)`, so
every palette field is the same after the second derivation. -/
theorem changeThemeMode_idempotent (darkPaletteText lightPaletteText theme : JsVal)
    (mode : String) (hd : wf darkPaletteText = true) (hl : wf lightPaletteText = true) :
    ((changeThemeMode darkPaletteText lightPaletteText theme mode).bind fun derived =>
        changeThemeMode darkPaletteText lightPaletteText derived mode) =
      changeThemeMode darkPaletteText lightPaletteText theme mode := by
  cases h : changeThemeMode darkPaletteText lightPaletteText theme mode with
  | none => rfl
  | some derived =>
    exact changeThemeMode_fixed darkPaletteText lightPaletteText theme derived mode hd hl h

end SettingsSlice

namespace SettingsSlice
open JsVal

/-- A defined scalar of the patch is held exactly, whatever the patch does to
`layout.style`. -/
theorem generateSettings_keeps_scalar (themeLayoutConfigs dps : Props) (P R : JsVal)
    (path : List String) (v : JsVal) (hD : wfProps dps = true) (hP : wf P = true)
    (hpath : path ≠ []) (hv : ownPath P path = some v) (hs : isScalar v = true)
    (h : generateSettings themeLayoutConfigs (obj dps) P = some R) :
    ownPath R path = some v := by
  cases P with
  | obj ps =>
    obtain ⟨key, o2, rs, _, _, h3, rfl⟩ := generateSettings_steps hD h
    exact baseMerge_ownPath_scalar hs path ps o2 rs hpath (by simpa [wf] using hP) hv h3
  | _ =>
    cases path with
    | nil => exact absurd rfl hpath
    | cons k ks => simp [ownPath] at hv

/-- C2, as amended.  Every key path of the patch that leads through plain objects and does not
start at `layout` holds in `generateSettings(D, P)` the value the patch gives it merged into
what `D` holds at the path: a defined scalar is held exactly, `undefined` leaves what `D`
holds, an array is merged index by index into the array `D` holds, and a nested object key by
key.  The same is true of the paths that start at `layout` when the patch does not set
`layout.style`, `D` holds `layout.config` and no layout style named `undefined` is
registered. -/
theorem generateSettings_merges_patch (themeLayoutConfigs dps : Props) (P R : JsVal)
    (path : List String) (v : JsVal) (hD : wfProps dps = true) (hP : wf P = true)
    (hpath : path ≠ []) (hv : ownPath P path = some v)
    (hcase : path.head? ≠ some "layout" ∨
      (optGet (optGet P "layout") "style" = undef ∧
       optGet (safeGet themeLayoutConfigs "undefined") "defaults" = undef ∧
       ∃ c, ownPath (obj dps) ["layout", "config"] = some c))
    (h : generateSettings themeLayoutConfigs (obj dps) P = some R) :
    (∃ nv, mergeValue (ownPath (obj dps) path) v = some nv ∧ ownPath R path = some nv) ∧
    (isScalar v = true → ownPath R path = some v) ∧
    (v = undef → ownPath R path = some ((ownPath (obj dps) path).getD undef)) ∧
    (∀ xs os, v = arr xs → ownPath (obj dps) path = some (arr os) →
      ownPath R path = (baseMergeElems os xs).map arr) ∧
    (∀ qs os, v = obj qs → ownPath (obj dps) path = some (obj os) →
      ownPath R path = (baseMerge os qs).map obj) := by
  have main : ∃ nv, mergeValue (ownPath (obj dps) path) v = some nv ∧
      ownPath R path = some nv := by
    cases P with
    | obj ps =>
      obtain ⟨key, o2, rs, hkey, h2, h3, rfl⟩ := generateSettings_steps hD h
      obtain ⟨nv, hnv, hrs⟩ :=
        baseMerge_ownPath path ps o2 rs hpath (by simpa [wf] using hP) hv h3
      refine ⟨nv, ?_, hrs⟩
      rcases hcase with hhead | ⟨hstyle, hreg, c, hconfig⟩
      · cases path with
        | nil => exact absurd rfl hpath
        | cons k ks =>
          have hk : "layout" ≠ k := by
            intro e; subst e; simp at hhead
          rw [← baseMerge_ownPath_of_absent ks (by simp [getOwn, hk]) h2]
          exact hnv
      · rw [hstyle] at hkey
        simp only [propertyKey, Option.some.injEq] at hkey
        subst hkey
        rw [hreg] at h2
        have hl : ∃ dl, getOwn "layout" dps = some (obj dl) ∧
            getOwn "config" dl = some c := by
          rw [ownPath_obj_cons] at hconfig
          cases hg : getOwn "layout" dps with
          | none => simp [hg] at hconfig
          | some w =>
            simp only [hg, Option.bind] at hconfig
            cases w with
            | obj dl => exact ⟨dl, rfl, by rw [← ownPath_single]; exact hconfig⟩
            | _ => simp [ownPath] at hconfig
        obtain ⟨dl, hl1, hl2⟩ := hl
        rw [baseMerge_layout_config_undef hl1 hl2] at h2
        cases h2
        exact hnv
    | _ =>
      cases path with
      | nil => exact absurd rfl hpath
      | cons k ks => simp [ownPath] at hv
  obtain ⟨nv, h1, h2⟩ := main
  refine ⟨⟨nv, h1, h2⟩, ?_, ?_, ?_, ?_⟩
  · intro hs
    rw [mergeValue_of_isScalar _ hs] at h1
    rw [h2, ← h1]
  · intro hu
    subst hu
    rw [mergeValue_undef] at h1
    rw [h2, ← h1]
  · intro xs os hx ho
    subst hx
    rw [h2, ← h1, ho]
    simp [mergeValue, isObject, baseMergeDeep, arrayTarget]
  · intro qs os hq ho
    subst hq
    rw [h2, ← h1, ho]
    simp [mergeValue, isObject, baseMergeDeep, objectTarget]

/-- C1, as amended.  When the patch names a registered layout style and carries no
`layout.config` of its own, `generateSettings(D, P).layout.config` is the registered defaults
of that style deep-merged over `D.layout.config`; when both are plain objects, every key of
`D.layout.config` that the registered defaults do not carry keeps the value `D` gives it. -/
theorem generateSettings_layout_config (themeLayoutConfigs dps ps ls : Props) (style : String)
    (entry R : JsVal) (hT : wfProps themeLayoutConfigs = true) (hD : wfProps dps = true)
    (hP : wfProps ps = true)
    (hl : getOwn "layout" ps = some (obj ls)) (hs : getOwn "style" ls = some (str style))
    (hc : getOwn "config" ls = none) (he : getOwn style themeLayoutConfigs = some entry)
    (h : generateSettings themeLayoutConfigs (obj dps) (obj ps) = some R) :
    ∃ config, mergeValue (ownPath (obj dps) ["layout", "config"]) (optGet entry "defaults")
        = some config ∧
      ownPath R ["layout", "config"] = some config ∧
      ∀ (dc rc : Props) (k : String),
        ownPath (obj dps) ["layout", "config"] = some (obj dc) →
        optGet entry "defaults" = obj rc → getOwn k rc = none →
        ownPath R ["layout", "config", k] = getOwn k dc := by
  obtain ⟨key, o2, rs, hkey, h2, h3, rfl⟩ := generateSettings_steps hD h
  have hk : key = style := by
    simp [optGet, safeGet, hl, hs, propertyKey] at hkey
    exact hkey.symm
  subst hk
  have hentry : safeGet themeLayoutConfigs key = entry := by simp [safeGet, he]
  rw [hentry] at h2
  have hmid : wfProps [("layout", obj [("config", optGet entry "defaults")])] = true := by
    have : wf (optGet entry "defaults") = true := by
      have hentry : wf entry = true := wf_of_getOwn hT he
      cases entry with
      | obj es => exact wf_safeGet (by simpa [wf] using hentry) _
      | _ => rfl
    simp [wfProps, wf, getOwn, objectPrototypeKeys, this]
  obtain ⟨config, hcfg, hpath⟩ := baseMerge_nested_of_mem "layout" "config"
    [("config", optGet entry "defaults")] hmid rfl rfl h2
  have hR : ownPath (obj rs) ["layout", "config"] = some config := by
    rw [baseMerge_nested_of_absent "layout" "config" ls hP hl hc h3, hpath]
  refine ⟨config, hcfg, hR, ?_⟩
  intro dc rc k hdc hrc hk
  rw [hdc, hrc] at hcfg
  have hsplit := ownPath_append [k] ["layout", "config"] (obj rs)
  simp only [List.cons_append, List.nil_append] at hsplit
  rw [hsplit, hR]
  exact mergeValue_obj_absent hcfg hk

/-- C8, as amended.  After `changeFuseTheme(T)` and its fulfilled update, each of the four
theme slots of `current` holds `T` deep-merged over what the slot holds in `s.defaults`; when
both are plain objects, every key of the slot in `s.defaults` that `T` does not carry keeps
its value. -/
theorem changeFuseTheme_slots (env : Env) (s s' : SettingsState) (T : JsVal)
    (writes : List Write) (slot : String) (hd : isSettings s.defaults = true)
    (hc : isSettings s.current = true) (hT : wf T = true)
    (hslot : slot ∈ ["main", "navbar", "toolbar", "footer"])
    (h : changeFuseTheme env s T = some (s', writes)) :
    ∃ c, mergeValue (ownPath s.defaults ["theme", slot]) T = some c ∧
      ownPath s'.current ["theme", slot] = some c ∧
      ∀ (old new : Props) (k : String),
        ownPath s.defaults ["theme", slot] = some (obj old) → T = obj new →
        getOwn k new = none → ownPath s'.current ["theme", slot, k] = getOwn k old := by
  obtain ⟨dps, hdps, hdwf⟩ := isSettings_iff.mp hd
  obtain ⟨cps, hcps, hcwf⟩ := isSettings_iff.mp hc
  unfold changeFuseTheme at h
  simp only [hcps, spread, dispatchSetDefaultSettings_eq, Option.map_eq_some'] at h
  obtain ⟨g, hg, he⟩ := h
  cases he
  rw [hdps] at hg ⊢
  obtain ⟨key, o2, rs, _, h2, h3, rfl⟩ := generateSettings_steps hdwf hg
  have hthemes : wfProps [("main", T), ("navbar", T), ("toolbar", T), ("footer", T)]
      = true := by
    simp [wfProps, getOwn, objectPrototypeKeys, hT]
  have hnps : wfProps (baseAssignValue "theme"
      (obj [("main", T), ("navbar", T), ("toolbar", T), ("footer", T)]) cps) = true :=
    wfProps_assign (by simp [objectPrototypeKeys]) (by simpa [wf] using hthemes) hcwf
  have hget : getOwn slot [("main", T), ("navbar", T), ("toolbar", T), ("footer", T)]
      = some T := by
    simp only [List.mem_cons, List.mem_singleton, List.not_mem_nil, or_false] at hslot
    rcases hslot with rfl | rfl | rfl | rfl <;> simp [getOwn]
  obtain ⟨c, hc1, hc2⟩ := baseMerge_nested_of_mem "theme" slot _ hnps
    (getOwn_assign_same _ _ _) hget h3
  have hc3 : mergeValue (ownPath (obj dps) ["theme", slot]) T = some c := by
    rw [← baseMerge_ownPath_of_absent [slot] (by simp [getOwn]) h2]
    exact hc1
  refine ⟨c, hc3, hc2, ?_⟩
  intro old new k hold hnew hk
  rw [hold, hnew] at hc3
  have hsplit := ownPath_append [k] ["theme", slot] (obj rs)
  simp only [List.cons_append, List.nil_append] at hsplit
  rw [hsplit, hc2]
  exact mergeValue_obj_absent hc3 hk

end SettingsSlice

/-! ## Witnesses and counterexamples -/

namespace SettingsSlice
open JsVal

/-- Counterexample to C1: with defaults whose `layout.config` holds `mode` and `scroll` and a
patch that names `layout2` (registered defaults: `mode` only), the resulting `layout.config`
still holds `scroll`, so it is not the registered defaults. -/
theorem generateSettings_layout_config_counterexample :
    (generateSettings exampleLayouts exampleDefaults
        (obj [("layout", obj [("style", str "layout2")])])).map
      (fun R => getPath R ["layout", "config"]) =
      some (obj [("mode", str "fullwidth"), ("scroll", str "content")]) ∧
    getPath (obj exampleLayouts) ["layout2", "defaults"] = obj [("mode", str "fullwidth")] ∧
    (generateSettings exampleLayouts exampleDefaults
        (obj [("layout", obj [("style", str "layout2")])])).map
      (fun R => getPath R ["layout", "config"]) ≠
      some (getPath (obj exampleLayouts) ["layout2", "defaults"]) := by
  refine ⟨rfl, rfl, ?_⟩
  decide

/-- Witness for C1 as amended. -/
theorem generateSettings_layout_config_witness :
    mergeValue (ownPath exampleDefaults ["layout", "config"])
        (obj [("mode", str "fullwidth")]) =
      some (obj [("mode", str "fullwidth"), ("scroll", str "content")]) ∧
    ∃ config, mergeValue (ownPath exampleDefaults ["layout", "config"])
        (optGet (obj [("defaults", obj [("mode", str "fullwidth")])]) "defaults")
          = some config ∧
      ownPath exampleLayout2 ["layout", "config"] = some config ∧
      ∀ (dc rc : Props) (k : String),
        ownPath exampleDefaults ["layout", "config"] = some (obj dc) →
        optGet (obj [("defaults", obj [("mode", str "fullwidth")])]) "defaults" = obj rc →
        getOwn k rc = none →
        ownPath exampleLayout2 ["layout", "config", k] = getOwn k dc :=
  ⟨rfl, generateSettings_layout_config exampleLayouts exampleDefaultsProps
    [("layout", obj [("style", str "layout2")])] [("style", str "layout2")] "layout2"
    (obj [("defaults", obj [("mode", str "fullwidth")])]) exampleLayout2
    rfl rfl rfl rfl rfl rfl rfl rfl⟩

/-- Counterexample to C2: a patch that does not set `layout.style` gives `defaultAuth` the
array `['user']` and `direction` the value `undefined`; the result holds
`['user', 'staff']` and `'ltr'`. -/
theorem generateSettings_keeps_patch_counterexample :
    (generateSettings exampleLayouts exampleDefaults
        (obj [("defaultAuth", arr [str "user"]), ("direction", undef)])).map
      (fun R => (getPath R ["defaultAuth"], getPath R ["direction"])) =
      some (arr [str "user", str "staff"], str "ltr") ∧
    getPath (obj [("defaultAuth", arr [str "user"]), ("direction", undef)]) ["layout", "style"]
      = undef ∧
    arr [str "user", str "staff"] ≠ arr [str "user"] ∧ str "ltr" ≠ undef := by
  refine ⟨rfl, rfl, ?_, ?_⟩ <;> decide

/-- Witness for C2 as amended, at the patch of the counterexample: the array `['user']` is
merged index by index into `['admin', 'staff']`, and `undefined` leaves the direction `D`
holds. -/
theorem generateSettings_merges_patch_witness :
    (ownPath examplePatched ["defaultAuth"] =
        (baseMergeElems [str "admin", str "staff"] [str "user"]).map arr ∧
      ownPath examplePatched ["defaultAuth"] = some (arr [str "user", str "staff"])) ∧
    (ownPath examplePatched ["direction"] =
        some ((ownPath exampleDefaults ["direction"]).getD undef) ∧
      ownPath examplePatched ["direction"] = some (str "ltr")) :=
  ⟨⟨(generateSettings_merges_patch exampleLayouts exampleDefaultsProps examplePatch
      examplePatched ["defaultAuth"] (arr [str "user"]) rfl rfl (by simp) rfl
      (Or.inl (by simp)) rfl).2.2.2.1 [str "user"] [str "admin", str "staff"] rfl rfl, rfl⟩,
   ⟨(generateSettings_merges_patch exampleLayouts exampleDefaultsProps examplePatch
      examplePatched ["direction"] undef rfl rfl (by simp) rfl
      (Or.inl (by simp)) rfl).2.2.1 rfl, rfl⟩⟩

/-- Counterexample to C3: one call of the full-settings-set operation makes two writes, not
one; and with a payload that holds `undefined` under a new key neither written text parses back
to the new `current`. -/
theorem dispatchSetDefaultSettings_writes_counterexample :
    (dispatchSetDefaultSettings exampleEnv exampleState (obj [("x", undef)])).map
      (fun r => (r.2.length, r.2.map fun w => parsesTo w.text r.1.current)) =
      some (2, [false, false]) := by
  decide

/-- Witness for C3 as amended. -/
theorem dispatchSetDefaultSettings_writes_witness :
    ∃ text, [saveSettingsToLocalStorage exampleRtl, saveSettingsToLocalStorage exampleRtl] =
        [{ key := "fuseSettings", text := text }, { key := "fuseSettings", text := text }] ∧
      text = storedText (jsonStringify exampleRtl) ∧
      (jsonExact exampleRtl = true → jsonParse text = Except.ok exampleRtl) :=
  dispatchSetDefaultSettings_writes exampleEnv exampleState
    { initial := exampleDefaults, defaults := exampleRtl, current := exampleRtl }
    (obj [("direction", str "rtl")])
    [saveSettingsToLocalStorage exampleRtl, saveSettingsToLocalStorage exampleRtl] rfl

/-- Witness for C4. -/
theorem setInitialSettings_restores_initial_witness :
    getInitialSettings exampleEnv = some exampleInitial ∧
    ∃ writes, setInitialSettings exampleEnv exampleState =
      some ({ initial := exampleInitial, defaults := exampleInitial,
              current := exampleInitial }, writes) :=
  ⟨rfl, setInitialSettings_restores_initial exampleEnv exampleState exampleInitial rfl⟩

/-- Counterexample to C5: with `defaults` holding `undefined`, `resetSettings` writes the text
`undefined` and returns the state whose `current` is the empty object. -/
theorem reducer_persists_current_counterexample :
    (reducer exampleEnv exampleUndefinedDefaults Action.resetSettings).map
        (fun r => (r.1.current, r.2.getLast?)) =
      some (obj [], some { key := "fuseSettings", text := StoredText.malformed }) ∧
    storedText (jsonStringify (obj [])) = StoredText.json (obj []) ∧
    parsesTo StoredText.malformed (obj []) = false := by
  decide

/-- Witness for C5 as amended: `resetSettings` on a state whose `current` has moved away from
its `defaults`. -/
theorem reducer_persists_current_witness :
    reducer exampleEnv exampleEdited Action.resetSettings =
      some (exampleState, [saveSettingsToLocalStorage exampleDefaults]) ∧
    ∃ text, [saveSettingsToLocalStorage exampleDefaults].getLast? =
        some { key := "fuseSettings", text := text } ∧
      text = storedText (jsonStringify exampleState.current) ∧
      (jsonExact exampleState.current = true →
        jsonParse text = Except.ok exampleState.current) :=
  ⟨rfl, reducer_persists_current exampleEnv exampleEdited exampleState Action.resetSettings
    [saveSettingsToLocalStorage exampleDefaults] rfl rfl⟩

/-- Witness for C6. -/
theorem getInitialSettings_of_unreadable_storage_witness :
    loadSettingsFromLocalStorage exampleEnv.storage = JsVal.null ∧
      getInitialSettings exampleEnv = initialSettingsWith exampleEnv JsVal.null :=
  getInitialSettings_of_unreadable_storage exampleEnv (Or.inl rfl)

/-- Witness for C7. -/
theorem changeThemeMode_idempotent_witness :
    changeThemeMode exampleEnv.darkPaletteText exampleEnv.lightPaletteText exampleTheme "light"
      = some exampleLightTheme ∧
    ((changeThemeMode exampleEnv.darkPaletteText exampleEnv.lightPaletteText exampleTheme
        "light").bind fun derived =>
        changeThemeMode exampleEnv.darkPaletteText exampleEnv.lightPaletteText derived "light")
      = changeThemeMode exampleEnv.darkPaletteText exampleEnv.lightPaletteText exampleTheme
        "light" :=
  ⟨rfl, changeThemeMode_idempotent exampleEnv.darkPaletteText exampleEnv.lightPaletteText
    exampleTheme "light" rfl rfl⟩

/-- Counterexample to C8: after `changeFuseTheme` with a theme that sets the palette mode only,
the slot `main` still holds the divider of the previous theme, so it does not equal the
theme. -/
theorem changeFuseTheme_slots_counterexample :
    (changeFuseTheme exampleEnv exampleState exampleLightPatch).map
      (fun r => getPath r.1.current ["theme", "main"]) = some exampleMergedTheme ∧
    exampleMergedTheme ≠ exampleLightPatch ∧
    getPath exampleMergedTheme ["palette", "divider"] = str "#334155" ∧
    getPath exampleDefaults ["theme", "main", "palette", "divider"] = str "#334155" := by
  refine ⟨rfl, ?_, rfl, rfl⟩
  decide

/-- Witness for C8 as amended. -/
theorem changeFuseTheme_slots_witness :
    mergeValue (ownPath exampleState.defaults ["theme", "main"]) exampleLightPatch =
      some exampleMergedTheme ∧
    ∃ c, mergeValue (ownPath exampleState.defaults ["theme", "main"]) exampleLightPatch
        = some c ∧
      ownPath exampleThemed ["theme", "main"] = some c ∧
      ∀ (old new : Props) (k : String),
        ownPath exampleState.defaults ["theme", "main"] = some (obj old) →
        exampleLightPatch = obj new → getOwn k new = none →
        ownPath exampleThemed ["theme", "main", k] = getOwn k old :=
  ⟨rfl, changeFuseTheme_slots exampleEnv exampleState
    { initial := exampleDefaults, defaults := exampleThemed, current := exampleThemed }
    exampleLightPatch
    [saveSettingsToLocalStorage exampleThemed, saveSettingsToLocalStorage exampleThemed]
    "main" rfl rfl rfl (by simp) rfl⟩

/-- Counterexample to C9: `setSettings` leaves `defaults` as it was, so `defaults` does not
equal `generateSettings(s.defaults, P)`. -/
theorem setSettings_defaults_counterexample :
    (setSettings exampleEnv exampleState (obj [("direction", str "rtl")])).map
      (fun r => (r.1.defaults, r.1.current)) = some (exampleDefaults, exampleRtl) ∧
    generateSettings exampleEnv.themeLayoutConfigs exampleState.defaults
      (obj [("direction", str "rtl")]) = some exampleRtl ∧
    exampleDefaults ≠ exampleRtl := by
  refine ⟨rfl, rfl, ?_⟩
  decide

end SettingsSlice
